import Mathlib

/-!
# manifest-operator: credential resolution and manifest-list assembly

A shallow embedding of `main.go`.  Go strings and byte slices are lists of
bytes.  Library calls whose behaviour the program depends on
(`encoding/base64`, `strings.SplitN`) are embedded after the Go standard
library; the registry client, the digest function and the JSON string
encoder are collaborators supplied as parameters.
-/

namespace ManifestOperator

/-! ## Bytes and strings -/

/-- A Go `byte`. -/
abbrev Byte := Fin 256

/-- A Go `string` or `[]byte`: a sequence of bytes. -/
abbrev Bytes := List Byte

/-- Go's conversion `byte(x)` of an unsigned integer: keep the low 8 bits. -/
def toByte (n : Nat) : Byte := ⟨n % 256, Nat.mod_lt n (by decide)⟩

/-- The bytes of an ASCII literal. -/
def ascii (s : String) : Bytes := s.toList.map (fun c => toByte c.toNat)

/-- The byte `':'`. -/
def colon : Byte := 58

/-- The byte `'='`, the padding character of `base64.StdEncoding`. -/
def padChar : Byte := 61

/-- The byte `'\n'`. -/
def newline : Byte := 10

/-- The byte `'\r'`. -/
def carriageReturn : Byte := 13

/-! ## `encoding/base64`, `StdEncoding` -/

/-- The alphabet of `base64.StdEncoding` (`encodeStd`). -/
def encodeStd : Bytes :=
  ascii "ABCDEFGHIJKLMNOPQRSTUVWXYZabcdefghijklmnopqrstuvwxyz0123456789+/"

/-- The table lookup `enc.encode[i]`. -/
def encodeChar (i : Nat) : Byte := encodeStd.getD i 0

/-- The table `enc.decodeMap`: every byte maps to `0xff` except the
alphabet's bytes, which map to their index. -/
def decodeMap (c : Byte) : Nat :=
  if c ∈ encodeStd then encodeStd.indexOf c else 0xff

/-- `Encoding.Encode` of `StdEncoding`: full groups of three bytes give four
characters; a remainder of one or two bytes gives two or three characters
and is padded with `'='` to four. -/
def EncodeToString : Bytes → Bytes
  | a :: b :: c :: rest =>
    let val := a.val <<< 16 ||| b.val <<< 8 ||| c.val
    encodeChar (val >>> 18 &&& 0x3F) :: encodeChar (val >>> 12 &&& 0x3F) ::
      encodeChar (val >>> 6 &&& 0x3F) :: encodeChar (val &&& 0x3F) :: EncodeToString rest
  | [a, b] =>
    let val := a.val <<< 16 ||| b.val <<< 8
    [encodeChar (val >>> 18 &&& 0x3F), encodeChar (val >>> 12 &&& 0x3F),
      encodeChar (val >>> 6 &&& 0x3F), padChar]
  | [a] =>
    let val := a.val <<< 16
    [encodeChar (val >>> 18 &&& 0x3F), encodeChar (val >>> 12 &&& 0x3F), padChar, padChar]
  | [] => []

/-- The loop `for si < len(src) && (src[si] == '\n' || src[si] == '\r')`
of `decodeQuantum`. -/
def skipNewlines (src : Bytes) : Bytes :=
  src.dropWhile (fun c => c = newline ∨ c = carriageReturn)

/-- The conversion at the end of `decodeQuantum`: the buffered 6-bit values
(missing ones are zero) are packed into 24 bits, of which `dlen - 1` bytes
are written. -/
def quantumBytes (dbuf : List Nat) : Bytes :=
  let val := dbuf.getD 0 0 <<< 18 ||| dbuf.getD 1 0 <<< 12 ||| dbuf.getD 2 0 <<< 6 ||| dbuf.getD 3 0
  let b2 := toByte (val >>> 0)
  let b1 := toByte (val >>> 8)
  let b0 := toByte (val >>> 16)
  match dbuf.length with
  | 4 => [b0, b1, b2]
  | 3 => [b0, b1]
  | 2 => [b0]
  | _ => []

/-- `Encoding.Decode` of `StdEncoding` (padded, not strict), following
`decodeQuantum` byte by byte: `dbuf` holds the 6-bit values read so far in
the current quantum.  `none` stands for a `CorruptInputError`.  The fast
path that decodes eight or four characters at once falls back to this loop
whenever it meets a byte outside the alphabet, and agrees with it
otherwise. -/
def decodeLoop : Bytes → List Nat → Option Bytes
  | [], dbuf => if dbuf.length = 0 then some [] else none
  | c :: src, dbuf =>
    let out := decodeMap c
    if out ≠ 0xff then
      if (dbuf ++ [out]).length = 4 then
        (decodeLoop src []).map (fun tail => quantumBytes (dbuf ++ [out]) ++ tail)
      else decodeLoop src (dbuf ++ [out])
    else if c = newline ∨ c = carriageReturn then decodeLoop src dbuf
    else if c ≠ padChar then none
    else
      match dbuf.length with
      | 0 => none
      | 1 => none
      | 2 =>
        match skipNewlines src with
        | [] => none
        | d :: src2 =>
          if d ≠ padChar then none
          else if skipNewlines src2 ≠ [] then none
          else some (quantumBytes dbuf)
      | _ => if skipNewlines src ≠ [] then none else some (quantumBytes dbuf)

/-- `base64.StdEncoding.DecodeString`. -/
def DecodeString (s : Bytes) : Option Bytes := decodeLoop s []

/-! ## `strings.SplitN` with a one-byte separator -/

/-- `strings.Index(s, sep)` for a one-byte `sep`: the position of the first
occurrence, if any. -/
def Index : Bytes → Byte → Option Nat
  | [], _ => none
  | c :: s, sep => if c = sep then some 0 else (Index s sep).map (· + 1)

/-- The loop of `genSplit`: at most `n` further cuts, then the rest. -/
def genSplitLoop : Nat → Bytes → Byte → List Bytes
  | 0, s, _ => [s]
  | n + 1, s, sep =>
    match Index s sep with
    | none => [s]
    | some m => s.take m :: genSplitLoop n (s.drop (m + 1)) sep

/-- `strings.SplitN(s, sep, n)` for a one-byte `sep` and `n ≥ 0`: `nil` for
`n = 0`, otherwise at most `min n (len(s) + 1)` pieces, the last one being
the unsplit remainder. -/
def SplitN (s : Bytes) (sep : Byte) (n : Nat) : List Bytes :=
  if n = 0 then []
  else genSplitLoop (min n (s.length + 1) - 1) s sep

/-! ## The credential resolver -/

/-- `AuthEntry`. -/
structure AuthEntry where
  Auth : Bytes
deriving DecidableEq, Repr

/-- `AuthFile`: the map `Auths` from registry host to entry, as an
association list read with `List.lookup`. -/
structure AuthFile where
  Auths : List (Bytes × AuthEntry)
deriving DecidableEq, Repr

/-- `types.DockerAuthConfig`, the two fields the program sets. -/
structure DockerAuthConfig where
  Username : Bytes
  Password : Bytes
deriving DecidableEq, Repr

/-- The three errors `getDockerAuthConfig` returns: the lookup miss
(`no auth entry for registry: %s`), the error of `DecodeString`, and
`invalid auth entry format`. -/
inductive AuthError where
  | noAuthEntry (registry : Bytes)
  | corruptInput
  | invalidFormat
deriving DecidableEq, Repr

/-- `getDockerAuthConfig`: the Go pair `(*types.DockerAuthConfig, error)`,
a nil pointer or nil error being `none`.  The receiver `authFile` is a
non-nil pointer, as at its only call site. -/
def getDockerAuthConfig (authFile : AuthFile) (registry : Bytes) :
    Option DockerAuthConfig × Option AuthError :=
  match authFile.Auths.lookup registry with
  | none => (none, some (AuthError.noAuthEntry registry))
  | some entry =>
    match DecodeString entry.Auth with
    | none => (none, some AuthError.corruptInput)
    | some decoded =>
      let parts := SplitN decoded colon 2
      if parts.length ≠ 2 then (none, some AuthError.invalidFormat)
      else (some { Username := parts.getD 0 [], Password := parts.getD 1 [] }, none)


/-- The store of the worked example: `quay.io` mapped to the base64 text of
`user:pa:ss`. -/
def exampleAuthFile : AuthFile :=
  { Auths := [(ascii "quay.io", { Auth := ascii "dXNlcjpwYTpzcw==" })] }

/-- A store with three further entries: text that is not base64, the
base64 text of `user` (no colon), and the base64 text of `:` alone. -/
def exampleOddAuthFile : AuthFile :=
  { Auths := [(ascii "bad.example", { Auth := ascii "!!!" }),
              (ascii "nocolon.example", { Auth := ascii "dXNlcg==" }),
              (ascii "empty.example", { Auth := ascii "Og==" })] }

/-! ## Data model of the index builder -/

/-- `Image`: one source image with its platform labels. -/
structure Image where
  ref : Bytes
  arch : Bytes
  os : Bytes
deriving DecidableEq, Repr

/-- The anonymous struct of the field `Platform` of `ManifestListEntry`. -/
structure Platform where
  Architecture : Bytes
  OS : Bytes
deriving DecidableEq, Repr

/-- `ManifestListEntry`. -/
structure ManifestListEntry where
  MediaType : Bytes
  Size : Int
  Digest : Bytes
  Platform : Platform
deriving DecidableEq, Repr

/-- `ManifestList`.  The slice `Manifests` is a list; the nil slice the
program starts from is the empty list (`append` never yields an empty
non-nil slice here). -/
structure ManifestList where
  SchemaVersion : Int
  MediaType : Bytes
  Manifests : List ManifestListEntry
deriving DecidableEq, Repr

/-- The media type written into every entry. -/
def manifestMediaType : Bytes := ascii "application/vnd.oci.image.manifest.v1+json"

/-- The media type written into the index. -/
def indexMediaType : Bytes := ascii "application/vnd.oci.image.index.v1+json"

/-! ## The collaborators: registry client, digest function, JSON strings -/

/-- A Go `error` value of a library call. -/
structure GoError where
  message : Bytes
deriving DecidableEq, Repr

/-- Handle of a parsed `types.ImageReference`. -/
abbrev Reference := Nat

/-- Handle of a `types.ImageSource` (a read session). -/
abbrev ImageSource := Nat

/-- Handle of a `types.ImageDestination` (a write session). -/
abbrev ImageDestination := Nat

/-- The calls the program makes on the outside world, in the order made.
Calls that can fail record their result (`none`, `false`: an error). -/
inductive Event where
  | newImageSource (ref : Reference) (result : Option ImageSource)
  | getManifest (src : ImageSource) (result : Option Bytes)
  | closeSource (src : ImageSource)
  | newImageDestination (ref : Reference) (result : Option ImageDestination)
  | putManifest (dest : ImageDestination) (manifest : Bytes) (accepted : Bool)
  | closeDestination (dest : ImageDestination)
  | println (line : Bytes)
deriving DecidableEq, Repr

/-- The libraries the builder calls.  Registry calls may answer differently
over time: they receive the history of calls made so far.
`ParseReference` and `Digest` (`manifest.Digest`) are functions of their
argument; `jsonString` is the string encoder of `encoding/json`. -/
structure World where
  ParseReference : Bytes → Except GoError Reference
  NewImageSource : List Event → Option DockerAuthConfig → Reference → Except GoError ImageSource
  GetManifest : List Event → ImageSource → Except GoError Bytes
  Digest : Bytes → Except GoError Bytes
  NewImageDestination :
    List Event → Option DockerAuthConfig → Reference → Except GoError ImageDestination
  PutManifest : List Event → ImageDestination → Bytes → Except GoError Unit
  jsonString : Bytes → Bytes

/-! ## `json.Marshal` of the index -/

/-- The members `"key":value` of a JSON object, comma separated, in the
order given. -/
def jsonMembers : List (Bytes × Bytes) → Bytes
  | [] => []
  | [(k, v)] => ascii "\"" ++ k ++ ascii "\":" ++ v
  | (k, v) :: rest => ascii "\"" ++ k ++ ascii "\":" ++ v ++ ascii "," ++ jsonMembers rest

/-- A JSON object with the given members, already encoded, in the order
given: the order of the struct's fields. -/
def jsonObject (members : List (Bytes × Bytes)) : Bytes :=
  ascii "\x7b" ++ jsonMembers members ++ ascii "\x7d"

/-- The elements of a JSON array, comma separated. -/
def jsonElements : List Bytes → Bytes
  | [] => []
  | [v] => v
  | v :: rest => v ++ ascii "," ++ jsonElements rest

/-- A Go slice as JSON: `null` for the nil slice, otherwise an array. -/
def jsonSlice (elements : List Bytes) : Bytes :=
  if elements = [] then ascii "null" else ascii "[" ++ jsonElements elements ++ ascii "]"

/-- A Go integer as JSON: its decimal digits. -/
def jsonInt (n : Int) : Bytes := ascii (toString n)

/-- The members of the platform struct, by its field tags. -/
def platformMembers (q : Bytes → Bytes) (p : Platform) : List (Bytes × Bytes) :=
  [(ascii "architecture", q p.Architecture), (ascii "os", q p.OS)]

/-- The members of a `ManifestListEntry`, by its field tags. -/
def entryMembers (q : Bytes → Bytes) (e : ManifestListEntry) : List (Bytes × Bytes) :=
  [(ascii "mediaType", q e.MediaType), (ascii "size", jsonInt e.Size),
   (ascii "digest", q e.Digest), (ascii "platform", jsonObject (platformMembers q e.Platform))]

/-- The members of a `ManifestList`, by its field tags. -/
def manifestListMembers (q : Bytes → Bytes) (l : ManifestList) : List (Bytes × Bytes) :=
  [(ascii "schemaVersion", jsonInt l.SchemaVersion), (ascii "mediaType", q l.MediaType),
   (ascii "manifests", jsonSlice (l.Manifests.map (fun e => jsonObject (entryMembers q e))))]

/-- `json.Marshal(manifestList)`; `q` is the JSON string encoder.  It cannot
fail on this type, so the check of its error is not reachable. -/
def Marshal (q : Bytes → Bytes) (l : ManifestList) : Bytes :=
  jsonObject (manifestListMembers q l)

/-! ## `createMFList` -/

/-- How a call of `createMFList` ends: it returns, or it panics with the
error of the failed step. -/
inductive Outcome where
  | returned
  | panicked (err : GoError)
deriving DecidableEq, Repr

/-- A finished call: how it ended and the calls it made. -/
structure Run where
  outcome : Outcome
  trace : List Event
deriving DecidableEq, Repr

/-- The entry the loop body builds from the image and the fetched bytes. -/
def newEntry (image : Image) (manifestBytes : Bytes) (manifestDigest : Bytes) :
    ManifestListEntry :=
  { MediaType := manifestMediaType
    Size := Int.ofNat manifestBytes.length
    Digest := manifestDigest
    Platform := { Architecture := image.arch, OS := image.os } }

/-- One iteration of the loop over `images`, from the history `t`: the
entry to append and the history after `imgSrc.Close()`, or the error the
iteration panics with and the history at that point. -/
def processImage (w : World) (authConfig : Option DockerAuthConfig) (t : List Event)
    (image : Image) : Except GoError ManifestListEntry × List Event :=
  match w.ParseReference (ascii "//" ++ image.ref) with
  | .error err => (.error err, t)
  | .ok ref =>
    match w.NewImageSource t authConfig ref with
    | .error err => (.error err, t ++ [Event.newImageSource ref none])
    | .ok imgSrc =>
      let t1 := t ++ [Event.newImageSource ref (some imgSrc)]
      match w.GetManifest t1 imgSrc with
      | .error err => (.error err, t1 ++ [Event.getManifest imgSrc none])
      | .ok manifestBytes =>
        let t2 := t1 ++ [Event.getManifest imgSrc (some manifestBytes),
          Event.println (ascii "Image " ++ ascii " " ++ image.ref)]
        match w.Digest manifestBytes with
        | .error err => (.error err, t2)
        | .ok manifestDigest =>
          (.ok (newEntry image manifestBytes manifestDigest), t2 ++ [Event.closeSource imgSrc])

/-- The loop `for _, image := range images`: entries are appended to
`manifestList.Manifests` in turn; the first failing iteration ends it. -/
def buildLoop (w : World) (authConfig : Option DockerAuthConfig) :
    List Image → ManifestList → List Event → Except GoError ManifestList × List Event
  | [], manifestList, t => (.ok manifestList, t)
  | image :: rest, manifestList, t =>
    match processImage w authConfig t image with
    | (.error err, t1) => (.error err, t1)
    | (.ok entry, t1) =>
      buildLoop w authConfig rest
        { manifestList with Manifests := manifestList.Manifests ++ [entry] } t1

/-- The first part of `createMFList`, up to the end of the loop: the
`ManifestList` it has built, or the error it panics with. -/
def buildManifestList (w : World) (authConfig : Option DockerAuthConfig) (images : List Image) :
    Except GoError ManifestList × List Event :=
  buildLoop w authConfig images
    { SchemaVersion := 2, MediaType := indexMediaType, Manifests := [] } []

/-- The second part of `createMFList`: serialize, print, open the
destination and put the manifest. -/
def publish (w : World) (authConfig : Option DockerAuthConfig) (finalMFImage : Bytes)
    (manifestList : ManifestList) (t : List Event) : Run :=
  let manifestListJSON := Marshal w.jsonString manifestList
  let t1 := t ++ [Event.println manifestListJSON]
  match w.ParseReference (ascii "//" ++ finalMFImage) with
  | .error err => { outcome := Outcome.panicked err, trace := t1 }
  | .ok ref =>
    match w.NewImageDestination t1 authConfig ref with
    | .error err =>
      { outcome := Outcome.panicked err, trace := t1 ++ [Event.newImageDestination ref none] }
    | .ok dest =>
      let t2 := t1 ++ [Event.newImageDestination ref (some dest)]
      match w.PutManifest t2 dest manifestListJSON with
      | .error err =>
        { outcome := Outcome.panicked err
          trace := t2 ++ [Event.putManifest dest manifestListJSON false] }
      | .ok _ =>
        { outcome := Outcome.returned
          trace := t2 ++ [Event.putManifest dest manifestListJSON true,
            Event.println (ascii "Manifest list image created successfully!")] }

/-- `createMFList(images, finalMFImage, ctx, authConfig)`; `ctx` is the
background context and carries nothing. -/
def createMFList (w : World) (images : List Image) (finalMFImage : Bytes)
    (authConfig : Option DockerAuthConfig) : Run :=
  match buildManifestList w authConfig images with
  | (.error err, t) => { outcome := Outcome.panicked err, trace := t }
  | (.ok manifestList, t) => publish w authConfig finalMFImage manifestList t

/-! ## Reading a history -/

/-- The manifests fetched with success, in the order fetched. -/
def fetched : List Event → List Bytes
  | [] => []
  | Event.getManifest _ (some manifestBytes) :: t => manifestBytes :: fetched t
  | _ :: t => fetched t

/-- The number of calls of `GetManifest`, failed ones included. -/
def fetchCalls : List Event → Nat
  | [] => 0
  | Event.getManifest _ _ :: t => fetchCalls t + 1
  | _ :: t => fetchCalls t

/-- The manifests handed to `PutManifest`, in order, whatever the answer. -/
def published : List Event → List Bytes
  | [] => []
  | Event.putManifest _ manifest _ :: t => manifest :: published t
  | _ :: t => published t

/-- The read sessions open after the history `t` that began with the read
sessions `open_` open: `NewImageSource` adds its session, `Close` removes
the session it is called on. -/
def openSources : List Event → List ImageSource → List ImageSource
  | [], open_ => open_
  | Event.newImageSource _ (some src) :: t, open_ => openSources t (open_ ++ [src])
  | Event.closeSource src :: t, open_ => openSources t (open_.erase src)
  | _ :: t, open_ => openSources t open_

/-- The write sessions open after the history `t`, likewise. -/
def openDestinations : List Event → List ImageDestination → List ImageDestination
  | [], open_ => open_
  | Event.newImageDestination _ (some dest) :: t, open_ => openDestinations t (open_ ++ [dest])
  | Event.closeDestination dest :: t, open_ => openDestinations t (open_.erase dest)
  | _ :: t, open_ => openDestinations t open_

/-! ## Describing runs -/

/-- What one successful iteration of the loop did: the image, the parsed
reference, the read session, the bytes fetched and their digest. -/
structure Step where
  image : Image
  ref : Reference
  src : ImageSource
  manifestBytes : Bytes
  manifestDigest : Bytes

/-- The calls of one successful iteration. -/
def Step.events (s : Step) : List Event :=
  [Event.newImageSource s.ref (some s.src), Event.getManifest s.src (some s.manifestBytes),
   Event.println (ascii "Image " ++ ascii " " ++ s.image.ref), Event.closeSource s.src]

/-- The entry appended by one successful iteration. -/
def Step.entry (s : Step) : ManifestListEntry :=
  newEntry s.image s.manifestBytes s.manifestDigest

/-- The calls of a sequence of successful iterations. -/
def stepEvents : List Step → List Event
  | [] => []
  | s :: rest => s.events ++ stepEvents rest

/-- The world answers the four calls of an iteration on `s.image`, made
from the history `t`, with success and with the values recorded in `s`:
the reference parses to `s.ref`, the read session `s.src` opens on it, the
fetch in that session returns `s.manifestBytes`, and the digest function
returns `s.manifestDigest` on these bytes. -/
def StepSucceeds (w : World) (authConfig : Option DockerAuthConfig) (t : List Event)
    (s : Step) : Prop :=
  w.ParseReference (ascii "//" ++ s.image.ref) = .ok s.ref ∧
  w.NewImageSource t authConfig s.ref = .ok s.src ∧
  w.GetManifest (t ++ [Event.newImageSource s.ref (some s.src)]) s.src = .ok s.manifestBytes ∧
  w.Digest s.manifestBytes = .ok s.manifestDigest

/-- The world answers with success along the run's own history: each
iteration of `steps` succeeds from the history left by the ones before. -/
def RunSucceeds (w : World) (authConfig : Option DockerAuthConfig) :
    List Event → List Step → Prop
  | _, [] => True
  | t, s :: rest => StepSucceeds w authConfig t s ∧ RunSucceeds w authConfig (t ++ s.events) rest

/-- Processing the image from the history `t` fails with `err`: at the
reference parsing, at the opening of the read session, at the manifest
fetch, or at the digest computation. -/
def StepFails (w : World) (authConfig : Option DockerAuthConfig) (t : List Event)
    (image : Image) (err : GoError) : Prop :=
  w.ParseReference (ascii "//" ++ image.ref) = .error err ∨
  ∃ ref, w.ParseReference (ascii "//" ++ image.ref) = .ok ref ∧
    (w.NewImageSource t authConfig ref = .error err ∨
     ∃ src, w.NewImageSource t authConfig ref = .ok src ∧
      (w.GetManifest (t ++ [Event.newImageSource ref (some src)]) src = .error err ∨
       ∃ manifestBytes,
        w.GetManifest (t ++ [Event.newImageSource ref (some src)]) src = .ok manifestBytes ∧
        w.Digest manifestBytes = .error err))

/-- The calls `calls` are those of an iteration on `image` from the
history `t` that stops at its first failing call, which fails with `err`:
none when the reference does not parse; the refused `NewImageSource`; the
opened session and its failed `GetManifest`; or the opened session, its
fetch and the printed line when the digest fails. -/
def StepFailsWith (w : World) (authConfig : Option DockerAuthConfig) (t : List Event)
    (image : Image) (err : GoError) (calls : List Event) : Prop :=
  (w.ParseReference (ascii "//" ++ image.ref) = .error err ∧ calls = []) ∨
  ∃ ref, w.ParseReference (ascii "//" ++ image.ref) = .ok ref ∧
    ((w.NewImageSource t authConfig ref = .error err ∧
        calls = [Event.newImageSource ref none]) ∨
     ∃ src, w.NewImageSource t authConfig ref = .ok src ∧
      ((w.GetManifest (t ++ [Event.newImageSource ref (some src)]) src = .error err ∧
          calls = [Event.newImageSource ref (some src), Event.getManifest src none]) ∨
       ∃ manifestBytes,
        w.GetManifest (t ++ [Event.newImageSource ref (some src)]) src = .ok manifestBytes ∧
        w.Digest manifestBytes = .error err ∧
        calls = [Event.newImageSource ref (some src),
          Event.getManifest src (some manifestBytes),
          Event.println (ascii "Image " ++ ascii " " ++ image.ref)]))

/-- The number of calls of `NewImageSource`, failed ones included. -/
def sourceCalls : List Event → Nat
  | [] => 0
  | Event.newImageSource _ _ :: t => sourceCalls t + 1
  | _ :: t => sourceCalls t

/-! ## Example worlds -/

/-- The string encoder on text that needs no escaping: the text in double
quotes. -/
def quotePlain (s : Bytes) : Bytes := ascii "\"" ++ s ++ ascii "\""

/-- A registry in which every call succeeds: references parse to the
sum of their bytes, a session has the handle of its reference, the
manifest read in session `s` is the letter `m` repeated `s % 7 + 1` times,
and the digest of a manifest is `sha256:` followed by the manifest. -/
def worldOk : World where
  ParseReference := fun s => .ok (s.map Fin.val).sum
  NewImageSource := fun _ _ ref => .ok ref
  GetManifest := fun _ src => .ok (List.replicate (src % 7 + 1) 109)
  Digest := fun b => .ok (ascii "sha256:" ++ b)
  NewImageDestination := fun _ _ ref => .ok ref
  PutManifest := fun _ _ _ => .ok ()
  jsonString := quotePlain

/-- The registry `worldOk`, except that the second `NewImageSource` is
refused. -/
def worldSecondOpenFails : World where
  ParseReference := worldOk.ParseReference
  NewImageSource := fun t authConfig ref =>
    if sourceCalls t = 1 then .error { message := ascii "manifest unknown" }
    else worldOk.NewImageSource t authConfig ref
  GetManifest := worldOk.GetManifest
  Digest := worldOk.Digest
  NewImageDestination := worldOk.NewImageDestination
  PutManifest := worldOk.PutManifest
  jsonString := quotePlain

/-- The registry `worldOk`, except that the digest function rejects
manifests of six bytes. -/
def worldDigestFails : World where
  ParseReference := worldOk.ParseReference
  NewImageSource := worldOk.NewImageSource
  GetManifest := worldOk.GetManifest
  Digest := fun b =>
    if b.length = 6 then .error { message := ascii "bad signature" } else worldOk.Digest b
  NewImageDestination := worldOk.NewImageDestination
  PutManifest := worldOk.PutManifest
  jsonString := quotePlain

/-- The registry `worldOk`, except that a read session that has been closed
cannot be read again. -/
def worldNoReadAfterClose : World where
  ParseReference := worldOk.ParseReference
  NewImageSource := worldOk.NewImageSource
  GetManifest := fun t src =>
    if Event.closeSource src ∈ t then .error { message := ascii "session closed" }
    else worldOk.GetManifest t src
  Digest := worldOk.Digest
  NewImageDestination := worldOk.NewImageDestination
  PutManifest := worldOk.PutManifest
  jsonString := quotePlain

/-- The registry `worldOk`, except that `PutManifest` is refused. -/
def worldPutFails : World where
  ParseReference := worldOk.ParseReference
  NewImageSource := worldOk.NewImageSource
  GetManifest := worldOk.GetManifest
  Digest := worldOk.Digest
  NewImageDestination := worldOk.NewImageDestination
  PutManifest := fun _ _ _ => .error { message := ascii "denied" }
  jsonString := quotePlain

/-- The reference `armImage` of `main`. -/
def armImage : Bytes := ascii "quay.io/jeffdyoung/hello:arm"

/-- The reference `x86Image` of `main`. -/
def x86Image : Bytes := ascii "quay.io/jeffdyoung/hello:x86"

/-- The first image `main` lists. -/
def imageArm : Image := { ref := armImage, arch := ascii "arm64", os := ascii "linux" }

/-- The second image `main` lists. -/
def imageX86 : Image := { ref := x86Image, arch := ascii "amd64", os := ascii "linux" }

/-- The `ImageList` that `main` passes to `createMFList`. -/
def ImageList : List Image := [imageArm, imageX86]

/-- The iteration on the first image of `main` in `worldOk`. -/
def stepArm : Step :=
  { image := imageArm, ref := 2881, src := 2881, manifestBytes := ascii "mmmmm",
    manifestDigest := ascii "sha256:mmmmm" }

/-- The iteration on the second image of `main` in `worldOk`. -/
def stepX86 : Step :=
  { image := imageX86, ref := 2791, src := 2791, manifestBytes := ascii "mmmmmm",
    manifestDigest := ascii "sha256:mmmmmm" }

/-- The destination `finalMFImage` of `main`. -/
def exampleDestination : Bytes := ascii "quay.io/jeffdyoung/hello:mf"

/-- The document published for `ImageList` in `worldOk`. -/
def exampleDocument : Bytes :=
  ascii ("\x7b\"schemaVersion\":2,\"mediaType\":\"application/vnd.oci.image.index.v1+json\",\"manifests\":[" ++
    "\x7b\"mediaType\":\"application/vnd.oci.image.manifest.v1+json\",\"size\":5,\"digest\":\"sha256:mmmmm\"," ++
    "\"platform\":\x7b\"architecture\":\"arm64\",\"os\":\"linux\"\x7d\x7d," ++
    "\x7b\"mediaType\":\"application/vnd.oci.image.manifest.v1+json\",\"size\":6," ++
    "\"digest\":\"sha256:mmmmmm\",\"platform\":\x7b\"architecture\":\"amd64\",\"os\":\"linux\"\x7d\x7d]\x7d")

/-! # Theorems -/

theorem or_shift (a b k : Nat) (h : b < 2 ^ k) : a <<< k ||| b = a * 2 ^ k + b := by
  rw [Nat.shiftLeft_eq, Nat.mul_comm a, ← Nat.mul_add_lt_is_or h]

theorem and_63 (x : Nat) : x &&& 0x3F = x % 64 := by
  have h := Nat.and_pow_two_sub_one_eq_mod x 6
  simpa using h

theorem pack3 (a b c : Nat) (hb : b < 256) (hc : c < 256) :
    a <<< 16 ||| b <<< 8 ||| c = a * 65536 + b * 256 + c := by
  rw [Nat.or_assoc, or_shift b c 8 (by omega), or_shift a _ 16 (by omega)]
  omega

theorem pack4 (s0 s1 s2 s3 : Nat) (h1 : s1 < 64) (h2 : s2 < 64) (h3 : s3 < 64) :
    s0 <<< 18 ||| s1 <<< 12 ||| s2 <<< 6 ||| s3 = s0 * 262144 + s1 * 4096 + s2 * 64 + s3 := by
  rw [Nat.or_assoc, Nat.or_assoc, or_shift s2 s3 6 (by omega), or_shift s1 _ 12 (by omega),
    or_shift s0 _ 18 (by omega)]
  omega

theorem decodeMap_encodeChar : ∀ n, n < 64 → decodeMap (encodeChar n) = n := by decide

theorem decodeLoop_sextet (n : Nat) (hn : n < 64) (src : Bytes) (dbuf : List Nat) :
    decodeLoop (encodeChar n :: src) dbuf =
      if (dbuf ++ [n]).length = 4 then
        (decodeLoop src []).map (fun tail => quantumBytes (dbuf ++ [n]) ++ tail)
      else decodeLoop src (dbuf ++ [n]) := by
  have h := decodeMap_encodeChar n hn
  have h2 : decodeMap (encodeChar n) ≠ 0xff := by rw [h]; omega
  rw [decodeLoop]
  simp only [h, h2, ne_eq, not_false_eq_true, if_true]
  split <;> simp_all

theorem quantum4 (a b c : Byte) :
    quantumBytes [(a.val <<< 16 ||| b.val <<< 8 ||| c.val) >>> 18 &&& 0x3F,
      (a.val <<< 16 ||| b.val <<< 8 ||| c.val) >>> 12 &&& 0x3F,
      (a.val <<< 16 ||| b.val <<< 8 ||| c.val) >>> 6 &&& 0x3F,
      (a.val <<< 16 ||| b.val <<< 8 ||| c.val) &&& 0x3F] = [a, b, c] := by
  have ha := a.isLt
  have hb := b.isLt
  have hc := c.isLt
  simp only [quantumBytes, List.getD_cons_zero, List.getD_cons_succ, List.length_cons,
    List.length_nil, and_63, Nat.shiftRight_eq_div_pow, pack3 _ _ _ hb hc]
  rw [pack4 _ _ _ _ (Nat.mod_lt _ (by decide)) (Nat.mod_lt _ (by decide)) (Nat.mod_lt _ (by decide))]
  simp only [toByte]
  refine congrArg₂ _ ?_ (congrArg₂ _ ?_ (congrArg₂ _ ?_ rfl)) <;> apply Fin.ext <;> simp <;> omega

theorem quantum3 (a b : Byte) :
    quantumBytes [(a.val <<< 16 ||| b.val <<< 8) >>> 18 &&& 0x3F,
      (a.val <<< 16 ||| b.val <<< 8) >>> 12 &&& 0x3F,
      (a.val <<< 16 ||| b.val <<< 8) >>> 6 &&& 0x3F] = [a, b] := by
  have ha := a.isLt
  have hb := b.isLt
  have hp : a.val <<< 16 ||| b.val <<< 8 = a.val * 65536 + b.val * 256 := by
    have h := pack3 a.val b.val 0 hb (by decide)
    simpa using h
  simp only [quantumBytes, List.getD_cons_zero, List.getD_cons_succ, List.length_cons,
    List.length_nil, List.getD_nil, and_63, Nat.shiftRight_eq_div_pow, hp]
  rw [pack4 _ _ _ _ (Nat.mod_lt _ (by decide)) (Nat.mod_lt _ (by decide)) (by decide)]
  simp only [toByte]
  refine congrArg₂ _ ?_ (congrArg₂ _ ?_ rfl) <;> apply Fin.ext <;> simp <;> omega

theorem quantum2 (a : Byte) :
    quantumBytes [(a.val <<< 16) >>> 18 &&& 0x3F, (a.val <<< 16) >>> 12 &&& 0x3F] = [a] := by
  have ha := a.isLt
  simp only [quantumBytes, List.getD_cons_zero, List.getD_cons_succ, List.length_cons,
    List.length_nil, List.getD_nil, and_63, Nat.shiftRight_eq_div_pow]
  rw [pack4 _ _ _ _ (Nat.mod_lt _ (by decide)) (by decide) (by decide), Nat.shiftLeft_eq]
  simp only [toByte]
  refine congrArg₂ _ ?_ rfl
  apply Fin.ext
  simp
  omega

theorem decodeLoop_pad1 (dbuf : List Nat) (h : dbuf.length = 3) :
    decodeLoop [padChar] dbuf = some (quantumBytes dbuf) := by
  have h1 : decodeMap padChar = 0xff := by decide
  have h2 : ¬ (padChar = newline ∨ padChar = carriageReturn) := by decide
  rw [decodeLoop]
  simp only [h1, h2, h, ne_eq, not_true_eq_false, if_false, skipNewlines, List.dropWhile_nil]

theorem decodeLoop_pad2 (dbuf : List Nat) (h : dbuf.length = 2) :
    decodeLoop [padChar, padChar] dbuf = some (quantumBytes dbuf) := by
  have h1 : decodeMap padChar = 0xff := by decide
  have h2 : ¬ (padChar = newline ∨ padChar = carriageReturn) := by decide
  have h3 : skipNewlines [padChar] = [padChar] := by decide
  rw [decodeLoop]
  simp only [h1, h2, h, h3, ne_eq, not_true_eq_false, if_false]
  simp [skipNewlines]

/-- Decoding undoes encoding, for `base64.StdEncoding`. -/
theorem DecodeString_EncodeToString (bs : Bytes) :
    DecodeString (EncodeToString bs) = some bs := by
  unfold DecodeString
  induction bs using EncodeToString.induct with
  | case1 a b c rest ih =>
    have m : ∀ x : Nat, x &&& 0x3F < 64 := fun x => by rw [and_63]; exact Nat.mod_lt _ (by decide)
    rw [EncodeToString]
    simp only [decodeLoop_sextet _ (m _), List.nil_append, List.cons_append, List.length_cons,
      List.length_nil, ih]
    simp [quantum4]
  | case2 a b =>
    have m : ∀ x : Nat, x &&& 0x3F < 64 := fun x => by rw [and_63]; exact Nat.mod_lt _ (by decide)
    rw [EncodeToString]
    simp only [decodeLoop_sextet _ (m _), List.nil_append, List.cons_append, List.length_cons,
      List.length_nil]
    simp [decodeLoop_pad1, quantum3]
  | case3 a =>
    have m : ∀ x : Nat, x &&& 0x3F < 64 := fun x => by rw [and_63]; exact Nat.mod_lt _ (by decide)
    rw [EncodeToString]
    simp only [decodeLoop_sextet _ (m _), List.nil_append, List.cons_append, List.length_cons,
      List.length_nil]
    simp [decodeLoop_pad2, quantum2]
  | case4 => simp [EncodeToString, decodeLoop]

/-- The decoder of `StdEncoding` skips line breaks, also inside the
padding, and does not look at the unused low bits of the last quantum. -/
theorem DecodeString_lenient :
    DecodeString (ascii "dXNl\ncjpw\r\nYTpzcw=\n=\n") = some (ascii "user:pa:ss") ∧
    DecodeString (ascii "dXNlcjpwYTpzcx==") = some (ascii "user:pa:ss") ∧
    DecodeString (ascii "dXNlcjpwYTpzcw=") = none ∧
    DecodeString (ascii "dXNlcjpwYTpzcw") = none ∧
    DecodeString (ascii "dXNlcjpwYTpzcw==dXNl") = none := by
  decide

theorem Index_eq_none (s : Bytes) (sep : Byte) (h : sep ∉ s) : Index s sep = none := by
  induction s with
  | nil => rfl
  | cons c s ih =>
    have hc : c ≠ sep := fun e => h (by simp [e])
    have hs : sep ∉ s := fun e => h (by simp [e])
    simp [Index, hc, ih hs]

theorem Index_append (u p : Bytes) (sep : Byte) (h : sep ∉ u) :
    Index (u ++ sep :: p) sep = some u.length := by
  induction u with
  | nil => simp [Index]
  | cons c u ih =>
    have hc : c ≠ sep := fun e => h (by simp [e])
    have hs : sep ∉ u := fun e => h (by simp [e])
    simp [Index, hc, ih hs]

theorem Index_some (s : Bytes) (sep : Byte) (m : Nat) (h : Index s sep = some m) :
    sep ∉ s.take m ∧ s.take m ++ sep :: s.drop (m + 1) = s := by
  induction s generalizing m with
  | nil => simp [Index] at h
  | cons c s ih =>
    by_cases hc : c = sep
    · simp [Index, hc] at h
      subst h
      simp [hc]
    · simp only [Index, hc, if_false, Option.map_eq_some'] at h
      obtain ⟨k, hk, rfl⟩ := h
      obtain ⟨h1, h2⟩ := ih k hk
      refine ⟨?_, ?_⟩
      · simp only [List.take_succ_cons, List.mem_cons, not_or]
        exact ⟨fun e => hc e.symm, h1⟩
      · simp only [List.take_succ_cons, List.drop_succ_cons, List.cons_append, h2]

theorem SplitN_no_sep (s : Bytes) (sep : Byte) (h : sep ∉ s) : SplitN s sep 2 = [s] := by
  unfold SplitN
  simp only [OfNat.ofNat_ne_zero, if_false]
  cases s with
  | nil => simp [genSplitLoop]
  | cons c s =>
    have e : min 2 ((c :: s).length + 1) - 1 = 1 := by simp only [List.length_cons]; omega
    rw [e, genSplitLoop, Index_eq_none _ _ h]

theorem SplitN_first (u p : Bytes) (sep : Byte) (h : sep ∉ u) :
    SplitN (u ++ sep :: p) sep 2 = [u, p] := by
  unfold SplitN
  simp only [OfNat.ofNat_ne_zero, if_false]
  have e : min 2 ((u ++ sep :: p).length + 1) - 1 = 1 := by
    simp only [List.length_append, List.length_cons]; omega
  rw [e, genSplitLoop, Index_append u p sep h]
  simp [genSplitLoop]

theorem Index_isSome (s : Bytes) (sep : Byte) (h : sep ∈ s) : ∃ m, Index s sep = some m := by
  cases hi : Index s sep with
  | some m => exact ⟨m, rfl⟩
  | none =>
    exfalso
    induction s with
    | nil => simp at h
    | cons c s ih =>
      by_cases hc : c = sep
      · simp [Index, hc] at hi
      · simp only [Index, hc, if_false, Option.map_eq_none'] at hi
        rcases List.mem_cons.mp h with e | e
        · exact hc e.symm
        · exact ih e hi

/-- The two outcomes of `SplitN s sep 2`: the whole of `s` when `sep` does
not occur, otherwise the parts before and after its first occurrence. -/
theorem SplitN_two (s : Bytes) (sep : Byte) :
    (sep ∉ s ∧ SplitN s sep 2 = [s]) ∨
      ∃ u p, sep ∉ u ∧ s = u ++ sep :: p ∧ SplitN s sep 2 = [u, p] := by
  by_cases h : sep ∈ s
  · obtain ⟨m, hm⟩ := Index_isSome s sep h
    obtain ⟨h1, h2⟩ := Index_some s sep m hm
    refine Or.inr ⟨s.take m, s.drop (m + 1), h1, h2.symm, ?_⟩
    have := SplitN_first (s.take m) (s.drop (m + 1)) sep h1
    rwa [h2] at this
  · exact Or.inl ⟨h, SplitN_no_sep s sep h⟩

/-- C1: if the store maps the registry host to the standard base64 encoding
of `u ++ ":" ++ p` and `u` contains no colon, `getDockerAuthConfig` returns
the credential with `Username = u` and `Password = p` and a nil error. -/
theorem getDockerAuthConfig_roundtrip (authFile : AuthFile) (registry u p : Bytes)
    (hu : colon ∉ u)
    (hentry : authFile.Auths.lookup registry = some { Auth := EncodeToString (u ++ colon :: p) }) :
    getDockerAuthConfig authFile registry = (some { Username := u, Password := p }, none) := by
  unfold getDockerAuthConfig
  rw [hentry]
  simp only [DecodeString_EncodeToString, SplitN_first u p colon hu]
  simp

/-- C1, at the worked example: the entry encoding `user:pa:ss` gives the
username `user` and the password `pa:ss`. -/
theorem getDockerAuthConfig_roundtrip_witness :
    EncodeToString (ascii "user" ++ colon :: ascii "pa:ss") = ascii "dXNlcjpwYTpzcw==" ∧
    getDockerAuthConfig exampleAuthFile (ascii "quay.io") =
      (some { Username := ascii "user", Password := ascii "pa:ss" }, none) :=
  ⟨by decide,
    getDockerAuthConfig_roundtrip exampleAuthFile (ascii "quay.io") (ascii "user") (ascii "pa:ss")
      (by decide) (by decide)⟩

/-- C2: for a registry host that is not a key of the store,
`getDockerAuthConfig` returns no credential and the not-found error. -/
theorem getDockerAuthConfig_missing (authFile : AuthFile) (registry : Bytes)
    (hmiss : registry ∉ authFile.Auths.map Prod.fst) :
    getDockerAuthConfig authFile registry = (none, some (AuthError.noAuthEntry registry)) := by
  have h : authFile.Auths.lookup registry = none := by
    rw [List.lookup_eq_none_iff]
    intro p hp
    rw [bne_iff_ne]
    intro hk
    exact hmiss (List.mem_map.mpr ⟨p, hp, hk.symm⟩)
  unfold getDockerAuthConfig
  rw [h]

/-- C2, at a host absent from the example store. -/
theorem getDockerAuthConfig_missing_witness :
    getDockerAuthConfig exampleAuthFile (ascii "docker.io") =
      (none, some (AuthError.noAuthEntry (ascii "docker.io"))) :=
  getDockerAuthConfig_missing exampleAuthFile (ascii "docker.io") (by decide)

/-- C3: when the registry host has an entry, a failed base64 decoding gives
the decoding error, a decoded text without a colon gives the format error,
a decoded text with a colon gives a credential and no error; so the call
fails exactly in the first two cases. -/
theorem getDockerAuthConfig_failure_cases (authFile : AuthFile) (registry : Bytes)
    (entry : AuthEntry) (hentry : authFile.Auths.lookup registry = some entry) :
    (DecodeString entry.Auth = none →
        getDockerAuthConfig authFile registry = (none, some AuthError.corruptInput)) ∧
    (∀ decoded, DecodeString entry.Auth = some decoded → colon ∉ decoded →
        getDockerAuthConfig authFile registry = (none, some AuthError.invalidFormat)) ∧
    (∀ decoded, DecodeString entry.Auth = some decoded → colon ∈ decoded →
        ∃ cfg, getDockerAuthConfig authFile registry = (some cfg, none)) ∧
    ((getDockerAuthConfig authFile registry).2 ≠ none ↔
        (DecodeString entry.Auth = none ∨
          ∃ decoded, DecodeString entry.Auth = some decoded ∧ colon ∉ decoded)) := by
  have key : ∀ decoded, DecodeString entry.Auth = some decoded →
      (colon ∉ decoded →
        getDockerAuthConfig authFile registry = (none, some AuthError.invalidFormat)) ∧
      (colon ∈ decoded → ∃ cfg, getDockerAuthConfig authFile registry = (some cfg, none)) := by
    intro decoded hd
    unfold getDockerAuthConfig
    rw [hentry]
    simp only [hd]
    rcases SplitN_two decoded colon with ⟨hn, hs⟩ | ⟨u, p, hu, hdec, hs⟩
    · rw [hs]
      exact ⟨fun _ => by simp, fun hc => absurd hc hn⟩
    · rw [hs]
      refine ⟨fun hc => absurd (by simp [hdec]) hc, fun _ => ⟨_, by simp; rfl⟩⟩
  have hnone : DecodeString entry.Auth = none →
      getDockerAuthConfig authFile registry = (none, some AuthError.corruptInput) := by
    intro hd
    unfold getDockerAuthConfig
    rw [hentry]
    simp only [hd]
  refine ⟨hnone, fun d hd => (key d hd).1, fun d hd => (key d hd).2, ?_⟩
  cases hd : DecodeString entry.Auth with
  | none => simp [hnone hd]
  | some d =>
    by_cases hc : colon ∈ d
    · obtain ⟨cfg, hcfg⟩ := (key d hd).2 hc
      simp [hcfg, hc]
    · simp [(key d hd).1 hc, hc]

/-- C3, at the example stores: an entry that is not base64 fails with the
decoding error, one decoding to `user` fails with the format error, and
the entry of `quay.io` succeeds. -/
theorem getDockerAuthConfig_failure_cases_witness :
    getDockerAuthConfig exampleOddAuthFile (ascii "bad.example") =
      (none, some AuthError.corruptInput) ∧
    getDockerAuthConfig exampleOddAuthFile (ascii "nocolon.example") =
      (none, some AuthError.invalidFormat) ∧
    ∃ cfg, getDockerAuthConfig exampleAuthFile (ascii "quay.io") = (some cfg, none) :=
  ⟨(getDockerAuthConfig_failure_cases exampleOddAuthFile (ascii "bad.example")
      { Auth := ascii "!!!" } (by decide)).1 (by decide),
    (getDockerAuthConfig_failure_cases exampleOddAuthFile (ascii "nocolon.example")
      { Auth := ascii "dXNlcg==" } (by decide)).2.1 (ascii "user") (by decide) (by decide),
    (getDockerAuthConfig_failure_cases exampleAuthFile (ascii "quay.io")
      { Auth := ascii "dXNlcjpwYTpzcw==" } (by decide)).2.2.1 (ascii "user:pa:ss")
      (by decide) (by decide)⟩

/-- C10: whenever `getDockerAuthConfig` returns a nil error it returns a
credential whose `Username` has no colon and for which
`Username ++ ":" ++ Password` is exactly the decoded entry. -/
theorem getDockerAuthConfig_lossless (authFile : AuthFile) (registry : Bytes)
    (hok : (getDockerAuthConfig authFile registry).2 = none) :
    ∃ entry decoded cfg,
      authFile.Auths.lookup registry = some entry ∧
      DecodeString entry.Auth = some decoded ∧
      (getDockerAuthConfig authFile registry).1 = some cfg ∧
      colon ∉ cfg.Username ∧
      cfg.Username ++ colon :: cfg.Password = decoded := by
  unfold getDockerAuthConfig at hok ⊢
  cases hl : authFile.Auths.lookup registry with
  | none => simp [hl] at hok
  | some entry =>
    cases hd : DecodeString entry.Auth with
    | none => simp [hl, hd] at hok
    | some decoded =>
      simp only [hl, hd] at hok ⊢
      rcases SplitN_two decoded colon with ⟨_, hs⟩ | ⟨u, p, hu, hdec, hs⟩
      · simp [hs] at hok
      · refine ⟨entry, decoded, { Username := u, Password := p }, rfl, hd, ?_, hu, hdec.symm⟩
        simp [hs]

/-- C10, at the entry that decodes to `:` alone: both parts are empty. -/
theorem getDockerAuthConfig_lossless_witness :
    getDockerAuthConfig exampleOddAuthFile (ascii "empty.example") =
      (some { Username := [], Password := [] }, none) ∧
    ∃ entry decoded cfg,
      exampleOddAuthFile.Auths.lookup (ascii "empty.example") = some entry ∧
      DecodeString entry.Auth = some decoded ∧
      (getDockerAuthConfig exampleOddAuthFile (ascii "empty.example")).1 = some cfg ∧
      colon ∉ cfg.Username ∧
      cfg.Username ++ colon :: cfg.Password = decoded :=
  ⟨by decide, getDockerAuthConfig_lossless exampleOddAuthFile (ascii "empty.example") (by decide)⟩

/-! ## Reading a history: concatenation -/

theorem fetched_append (a b : List Event) : fetched (a ++ b) = fetched a ++ fetched b := by
  induction a with
  | nil => rfl
  | cons e a ih =>
    cases e with
    | getManifest src result => cases result <;> simp [fetched, ih]
    | _ => simp [fetched, ih]

theorem fetchCalls_append (a b : List Event) :
    fetchCalls (a ++ b) = fetchCalls a + fetchCalls b := by
  induction a with
  | nil => simp [fetchCalls]
  | cons e a ih =>
    cases e <;> simp [fetchCalls, ih]
    omega

theorem published_append (a b : List Event) :
    published (a ++ b) = published a ++ published b := by
  induction a with
  | nil => rfl
  | cons e a ih => cases e <;> simp [published, ih]

theorem openSources_append (a b : List Event) (o : List ImageSource) :
    openSources (a ++ b) o = openSources b (openSources a o) := by
  induction a generalizing o with
  | nil => rfl
  | cons e a ih =>
    cases e with
    | newImageSource ref result => cases result <;> simp [openSources, ih]
    | _ => simp [openSources, ih]

theorem openDestinations_append (a b : List Event) (o : List ImageDestination) :
    openDestinations (a ++ b) o = openDestinations b (openDestinations a o) := by
  induction a generalizing o with
  | nil => rfl
  | cons e a ih =>
    cases e with
    | newImageDestination ref result => cases result <;> simp [openDestinations, ih]
    | _ => simp [openDestinations, ih]

theorem stepEvents_append (a b : List Step) :
    stepEvents (a ++ b) = stepEvents a ++ stepEvents b := by
  induction a with
  | nil => rfl
  | cons s a ih => simp [stepEvents, ih]

theorem fetched_stepEvents (steps : List Step) :
    fetched (stepEvents steps) = steps.map Step.manifestBytes := by
  induction steps with
  | nil => rfl
  | cons s steps ih => simp [stepEvents, Step.events, fetched, ih]

theorem fetchCalls_stepEvents (steps : List Step) :
    fetchCalls (stepEvents steps) = steps.length := by
  induction steps with
  | nil => rfl
  | cons s steps ih => simp [stepEvents, Step.events, fetchCalls, ih]

theorem published_stepEvents (steps : List Step) : published (stepEvents steps) = [] := by
  induction steps with
  | nil => rfl
  | cons s steps ih => simp [stepEvents, Step.events, published, ih]

theorem openSources_stepEvents (steps : List Step) : openSources (stepEvents steps) [] = [] := by
  induction steps with
  | nil => rfl
  | cons s steps ih => simp [stepEvents, Step.events, openSources, ih]

theorem openDestinations_stepEvents (steps : List Step) (o : List ImageDestination) :
    openDestinations (stepEvents steps) o = o := by
  induction steps with
  | nil => rfl
  | cons s steps ih => simp [stepEvents, Step.events, openDestinations, ih]

theorem closeDestination_not_mem_stepEvents (steps : List Step) (dest : ImageDestination) :
    Event.closeDestination dest ∉ stepEvents steps := by
  induction steps with
  | nil => simp [stepEvents]
  | cons s steps ih => simp [stepEvents, Step.events, ih]

theorem newImageDestination_not_mem_stepEvents (steps : List Step) (ref : Reference)
    (result : Option ImageDestination) :
    Event.newImageDestination ref result ∉ stepEvents steps := by
  induction steps with
  | nil => simp [stepEvents]
  | cons s steps ih => simp [stepEvents, Step.events, ih]

/-! ## The loop body and the loop -/

/-- A successful iteration, spelled out. -/
theorem processImage_ok (w : World) (authConfig : Option DockerAuthConfig) (t t1 : List Event)
    (image : Image) (entry : ManifestListEntry)
    (h : processImage w authConfig t image = (.ok entry, t1)) :
    ∃ s : Step, s.image = image ∧ entry = s.entry ∧ t1 = t ++ s.events ∧
      w.ParseReference (ascii "//" ++ image.ref) = .ok s.ref ∧
      w.NewImageSource t authConfig s.ref = .ok s.src ∧
      w.GetManifest (t ++ [Event.newImageSource s.ref (some s.src)]) s.src = .ok s.manifestBytes ∧
      w.Digest s.manifestBytes = .ok s.manifestDigest := by
  unfold processImage at h
  split at h
  · simp at h
  · rename_i ref hp
    split at h
    · simp at h
    · rename_i src hs
      simp only at h
      split at h
      · simp at h
      · rename_i b hg
        split at h
        · simp at h
        · rename_i d hd
          simp only [Prod.mk.injEq, Except.ok.injEq] at h
          refine ⟨⟨image, ref, src, b, d⟩, rfl, h.1.symm, ?_, hp, hs, hg, hd⟩
          rw [← h.2]
          simp [Step.events]

/-- A failing iteration fails at one of its four steps, and conversely. -/
theorem processImage_error_iff (w : World) (authConfig : Option DockerAuthConfig)
    (t : List Event) (image : Image) (err : GoError) :
    (∃ t1, processImage w authConfig t image = (.error err, t1)) ↔
      StepFails w authConfig t image err := by
  unfold processImage StepFails
  cases hp : w.ParseReference (ascii "//" ++ image.ref) with
  | error e => simp
  | ok ref =>
    simp only []
    cases hs : w.NewImageSource t authConfig ref with
    | error e => simp [hs]
    | ok src =>
      simp only []
      cases hg : w.GetManifest (t ++ [Event.newImageSource ref (some src)]) src with
      | error e => simp [hs, hg]
      | ok b =>
        simp only []
        cases hd : w.Digest b with
        | error e => simp [hs, hg, hd]
        | ok d => simp [hs, hg, hd]

/-- A failing iteration adds at most one fetch and nothing else that
matters: no publish, no write session. -/
theorem processImage_error (w : World) (authConfig : Option DockerAuthConfig) (t t1 : List Event)
    (image : Image) (err : GoError)
    (h : processImage w authConfig t image = (.error err, t1)) :
    ∃ suffix, t1 = t ++ suffix ∧ published suffix = [] ∧ fetchCalls suffix ≤ 1 ∧
      (∀ ref result, Event.newImageDestination ref result ∉ suffix) ∧
      (∀ dest, Event.closeDestination dest ∉ suffix) ∧
      (∀ o, openDestinations suffix o = o) ∧
      (∀ o, (openSources suffix o).length ≤ o.length + 1) := by
  unfold processImage at h
  split at h
  · simp only [Prod.mk.injEq] at h
    exact ⟨[], by simp [h.2], rfl, by simp [fetchCalls], by simp, by simp, fun o => rfl, fun o => by simp [openSources]⟩
  · rename_i ref hp
    split at h
    · simp only [Prod.mk.injEq] at h
      exact ⟨[Event.newImageSource ref none], h.2.symm, rfl, by simp [fetchCalls], by simp,
        by simp, fun o => rfl, fun o => by simp [openSources]⟩
    · rename_i src hs
      simp only at h
      split at h
      · simp only [Prod.mk.injEq] at h
        refine ⟨[Event.newImageSource ref (some src), Event.getManifest src none],
          ?_, rfl, by simp [fetchCalls], by simp, by simp, fun o => rfl, fun o => by simp [openSources]⟩
        rw [← h.2, List.append_assoc]
        rfl
      · rename_i b hg
        split at h
        · simp only [Prod.mk.injEq] at h
          refine ⟨[Event.newImageSource ref (some src), Event.getManifest src (some b),
            Event.println (ascii "Image " ++ ascii " " ++ image.ref)],
            ?_, rfl, by simp [fetchCalls], by simp, by simp, fun o => rfl, fun o => by simp [openSources]⟩
          rw [← h.2, List.append_assoc]
          rfl
        · simp at h

/-- A completed loop, spelled out: one successful iteration per image, in
order; the entries are appended in that order and the history grows by the
calls of the iterations. -/
theorem buildLoop_ok (w : World) (authConfig : Option DockerAuthConfig) (images : List Image)
    (l l1 : ManifestList) (t t1 : List Event)
    (h : buildLoop w authConfig images l t = (.ok l1, t1)) :
    ∃ steps : List Step, steps.map Step.image = images ∧
      l1 = { l with Manifests := l.Manifests ++ steps.map Step.entry } ∧
      t1 = t ++ stepEvents steps ∧
      ∀ s ∈ steps, w.Digest s.manifestBytes = .ok s.manifestDigest := by
  induction images generalizing l t with
  | nil =>
    simp only [buildLoop, Prod.mk.injEq, Except.ok.injEq] at h
    exact ⟨[], rfl, by simp [h.1], by simp [stepEvents, h.2], by simp⟩
  | cons image rest ih =>
    rw [buildLoop] at h
    split at h
    · simp at h
    · rename_i entry t2 hp
      obtain ⟨s, hs1, hs2, hs3, _, _, _, hs7⟩ := processImage_ok w authConfig t t2 image entry hp
      obtain ⟨steps, h1, h2, h3, h4⟩ := ih _ _ h
      refine ⟨s :: steps, by simp [hs1, h1], ?_, ?_, ?_⟩
      · rw [h2]; simp [hs2]
      · rw [h3, hs3]; simp [stepEvents]
      · intro x hx
        rcases List.mem_cons.mp hx with e | e
        · rw [e]; exact hs7
        · exact h4 x e

/-- The loop over `pre ++ rest` is the loop over `pre` followed, if it
completes, by the loop over `rest`. -/
theorem buildLoop_append (w : World) (authConfig : Option DockerAuthConfig)
    (pre rest : List Image) (l : ManifestList) (t : List Event) :
    buildLoop w authConfig (pre ++ rest) l t =
      match buildLoop w authConfig pre l t with
      | (.error err, t1) => (.error err, t1)
      | (.ok l1, t1) => buildLoop w authConfig rest l1 t1 := by
  induction pre generalizing l t with
  | nil => simp [buildLoop]
  | cons image pre ih =>
    simp only [List.cons_append, buildLoop]
    split
    · rfl
    · exact ih _ _

/-- Whatever `publish` does, it starts by printing the serialized index,
then calls `PutManifest` at most once, with exactly those bytes, never
closes the write session, and returns only when `PutManifest` accepted. -/
theorem publish_trace (w : World) (authConfig : Option DockerAuthConfig) (finalMFImage : Bytes)
    (l : ManifestList) (t : List Event) :
    ∃ suffix, (publish w authConfig finalMFImage l t).trace = t ++ suffix ∧
      (published suffix = [] ∨ published suffix = [Marshal w.jsonString l]) ∧
      ((publish w authConfig finalMFImage l t).outcome = Outcome.returned →
        published suffix = [Marshal w.jsonString l]) ∧
      fetchCalls suffix = 0 ∧
      (∀ dest, Event.closeDestination dest ∉ suffix) ∧
      (∀ o, openSources suffix o = o) ∧
      ((publish w authConfig finalMFImage l t).outcome = Outcome.returned →
        ∃ dest, ∀ o, openDestinations suffix o = o ++ [dest]) := by
  unfold publish
  simp only []
  split
  · exact ⟨[Event.println (Marshal w.jsonString l)], rfl, Or.inl rfl, by simp, rfl, by simp,
      fun o => rfl, by simp⟩
  · rename_i ref hp
    split
    · refine ⟨[Event.println (Marshal w.jsonString l), Event.newImageDestination ref none],
        by simp, Or.inl rfl, by simp, rfl, by simp, fun o => rfl, by simp⟩
    · rename_i dest hd
      split
      · refine ⟨[Event.println (Marshal w.jsonString l),
          Event.newImageDestination ref (some dest),
          Event.putManifest dest (Marshal w.jsonString l) false],
          by simp, Or.inr rfl, by simp [published], rfl, by simp, fun o => rfl, by simp⟩
      · refine ⟨[Event.println (Marshal w.jsonString l),
          Event.newImageDestination ref (some dest),
          Event.putManifest dest (Marshal w.jsonString l) true,
          Event.println (ascii "Manifest list image created successfully!")],
          by simp, Or.inr rfl, by simp [published], rfl, by simp, fun o => rfl,
          fun _ => ⟨dest, fun o => rfl⟩⟩

/-- The calls of `publish` begin with the printing of the serialized index;
it fetches nothing and touches no read session. -/
theorem publish_calls (w : World) (authConfig : Option DockerAuthConfig) (finalMFImage : Bytes)
    (l : ManifestList) (t : List Event) :
    ∃ rest, (publish w authConfig finalMFImage l t).trace =
        t ++ Event.println (Marshal w.jsonString l) :: rest ∧
      fetched rest = [] ∧ (∀ o, openSources rest o = o) := by
  unfold publish
  simp only []
  split
  · exact ⟨[], rfl, rfl, fun o => rfl⟩
  · rename_i ref hp
    split
    · exact ⟨[Event.newImageDestination ref none], by simp, rfl, fun o => rfl⟩
    · rename_i dest hd
      split
      · exact ⟨[Event.newImageDestination ref (some dest),
          Event.putManifest dest (Marshal w.jsonString l) false], by simp, rfl, fun o => rfl⟩
      · exact ⟨[Event.newImageDestination ref (some dest),
          Event.putManifest dest (Marshal w.jsonString l) true,
          Event.println (ascii "Manifest list image created successfully!")],
          by simp, rfl, fun o => rfl⟩

/-! ## Runs in which the world answers with success -/

theorem sourceCalls_append (a b : List Event) :
    sourceCalls (a ++ b) = sourceCalls a + sourceCalls b := by
  induction a with
  | nil => simp [sourceCalls]
  | cons e a ih =>
    cases e <;> simp [sourceCalls, ih]
    omega

theorem sourceCalls_stepEvents (steps : List Step) :
    sourceCalls (stepEvents steps) = steps.length := by
  induction steps with
  | nil => rfl
  | cons s steps ih => simp [stepEvents, Step.events, sourceCalls, ih]

/-- The calls of a sequence of iterations, cut at the `i`-th. -/
theorem stepEvents_split (steps : List Step) (i : Nat) (s : Step) (h : steps[i]? = some s) :
    stepEvents steps =
      stepEvents (steps.take i) ++ s.events ++ stepEvents (steps.drop (i + 1)) := by
  induction steps generalizing i with
  | nil => simp at h
  | cons x steps ih =>
    cases i with
    | zero =>
      simp only [List.getElem?_cons_zero, Option.some.injEq] at h
      simp [stepEvents, h]
    | succ i =>
      simp only [List.getElem?_cons_succ] at h
      simp only [List.take_succ_cons, List.drop_succ_cons, stepEvents, ih i h,
        List.append_assoc]

/-- An iteration that the world answers with success: the loop body
returns the entry of the iteration and makes exactly its calls. -/
theorem processImage_of_succeeds (w : World) (authConfig : Option DockerAuthConfig)
    (t : List Event) (s : Step) (h : StepSucceeds w authConfig t s) :
    processImage w authConfig t s.image = (.ok s.entry, t ++ s.events) := by
  obtain ⟨hp, hs, hg, hd⟩ := h
  unfold processImage
  simp only [hp, hs, hg, hd]
  simp [Step.entry, Step.events]

/-- A run that the world answers with success: the loop completes, appends
the entries of the iterations in order and makes exactly their calls. -/
theorem buildLoop_of_succeeds (w : World) (authConfig : Option DockerAuthConfig)
    (steps : List Step) (l : ManifestList) (t : List Event)
    (h : RunSucceeds w authConfig t steps) :
    buildLoop w authConfig (steps.map Step.image) l t =
      (.ok { l with Manifests := l.Manifests ++ steps.map Step.entry },
        t ++ stepEvents steps) := by
  induction steps generalizing l t with
  | nil => simp [buildLoop, stepEvents]
  | cons s steps ih =>
    obtain ⟨hs, hrest⟩ := h
    simp only [List.map_cons, buildLoop, processImage_of_succeeds w authConfig t s hs]
    rw [ih _ _ hrest]
    simp [stepEvents]

/-- In a run that the world answers with success, the `i`-th iteration
succeeds from the history made of the calls of the iterations before it. -/
theorem RunSucceeds_at (w : World) (authConfig : Option DockerAuthConfig)
    (steps : List Step) (t : List Event) (h : RunSucceeds w authConfig t steps)
    (i : Nat) (s : Step) (hi : steps[i]? = some s) :
    StepSucceeds w authConfig (t ++ stepEvents (steps.take i)) s := by
  induction steps generalizing t i with
  | nil => simp at hi
  | cons x steps ih =>
    obtain ⟨hx, hrest⟩ := h
    cases i with
    | zero =>
      simp only [List.getElem?_cons_zero, Option.some.injEq] at hi
      rw [← hi]
      simpa [stepEvents] using hx
    | succ i =>
      simp only [List.getElem?_cons_succ] at hi
      have := ih (t ++ x.events) hrest i hi
      simpa [stepEvents, List.append_assoc] using this

/-- The built index of a run that the world answers with success. -/
theorem buildManifestList_of_succeeds (w : World) (authConfig : Option DockerAuthConfig)
    (images : List Image) (steps : List Step)
    (himages : steps.map Step.image = images) (h : RunSucceeds w authConfig [] steps) :
    buildManifestList w authConfig images =
      (.ok { SchemaVersion := 2, MediaType := indexMediaType,
             Manifests := steps.map Step.entry }, stepEvents steps) := by
  unfold buildManifestList
  rw [← himages, buildLoop_of_succeeds w authConfig steps _ [] h]
  simp

/-- Conversely, whenever the loop completes, the world has answered every
image with success along the run. -/
theorem RunSucceeds_of_buildLoop_ok (w : World) (authConfig : Option DockerAuthConfig)
    (images : List Image) (l l1 : ManifestList) (t t1 : List Event)
    (h : buildLoop w authConfig images l t = (.ok l1, t1)) :
    ∃ steps : List Step, steps.map Step.image = images ∧ RunSucceeds w authConfig t steps := by
  induction images generalizing l t with
  | nil => exact ⟨[], rfl, trivial⟩
  | cons image rest ih =>
    rw [buildLoop] at h
    split at h
    · simp at h
    · rename_i entry t2 hp
      obtain ⟨s, hs1, _, hs3, hs4, hs5, hs6, hs7⟩ :=
        processImage_ok w authConfig t t2 image entry hp
      rw [hs3] at h
      obtain ⟨steps, h1, h2⟩ := ih _ _ h
      refine ⟨s :: steps, by simp [hs1, h1], ?_, h2⟩
      exact ⟨by rw [hs1]; exact hs4, hs5, hs6, hs7⟩

/-- The loop of `createMFList` completes exactly when the world answers
every image of the input with success along the run. -/
theorem buildManifestList_ok_iff (w : World) (authConfig : Option DockerAuthConfig)
    (images : List Image) :
    (∃ l t, buildManifestList w authConfig images = (.ok l, t)) ↔
      ∃ steps : List Step, steps.map Step.image = images ∧ RunSucceeds w authConfig [] steps := by
  constructor
  · rintro ⟨l, t, h⟩
    exact RunSucceeds_of_buildLoop_ok w authConfig images _ l [] t h
  · rintro ⟨steps, h1, h2⟩
    exact ⟨_, _, buildManifestList_of_succeeds w authConfig images steps h1 h2⟩

/-- A failing world answer determines the calls of the failing iteration. -/
theorem StepFails_calls (w : World) (authConfig : Option DockerAuthConfig) (t : List Event)
    (image : Image) (err : GoError) (h : StepFails w authConfig t image err) :
    ∃ calls, StepFailsWith w authConfig t image err calls := by
  unfold StepFails at h
  unfold StepFailsWith
  rcases h with h | ⟨ref, hp, h | ⟨src, hs, h | ⟨b, hg, hd⟩⟩⟩
  · exact ⟨_, Or.inl ⟨h, rfl⟩⟩
  · exact ⟨_, Or.inr ⟨ref, hp, Or.inl ⟨h, rfl⟩⟩⟩
  · exact ⟨_, Or.inr ⟨ref, hp, Or.inr ⟨src, hs, Or.inl ⟨h, rfl⟩⟩⟩⟩
  · exact ⟨_, Or.inr ⟨ref, hp, Or.inr ⟨src, hs, Or.inr ⟨b, hg, hd, rfl⟩⟩⟩⟩

/-- An iteration that the world fails: the loop body returns the error
and makes exactly the calls up to the failing one. -/
theorem processImage_of_fails (w : World) (authConfig : Option DockerAuthConfig)
    (t : List Event) (image : Image) (err : GoError) (calls : List Event)
    (h : StepFailsWith w authConfig t image err calls) :
    processImage w authConfig t image = (.error err, t ++ calls) := by
  unfold StepFailsWith at h
  unfold processImage
  rcases h with ⟨h, hc⟩ | ⟨ref, hp, ⟨h, hc⟩ | ⟨src, hs, ⟨h, hc⟩ | ⟨b, hg, hd, hc⟩⟩⟩
  · simp [h, hc]
  · simp [hp, h, hc]
  · simp [hp, hs, h, hc]
  · simp [hp, hs, hg, hd, hc]

/-- The calls of a failing iteration: at most one session, at most one
fetch, no publish and no write session. -/
theorem StepFailsWith_calls (w : World) (authConfig : Option DockerAuthConfig)
    (t : List Event) (image : Image) (err : GoError) (calls : List Event)
    (h : StepFailsWith w authConfig t image err calls) :
    published calls = [] ∧ sourceCalls calls ≤ 1 ∧ fetchCalls calls ≤ 1 ∧
      ∀ ref result, Event.newImageDestination ref result ∉ calls := by
  unfold StepFailsWith at h
  rcases h with ⟨_, hc⟩ | ⟨ref, _, ⟨_, hc⟩ | ⟨src, _, ⟨_, hc⟩ | ⟨b, _, _, hc⟩⟩⟩ <;>
    subst hc <;> simp [published, sourceCalls, fetchCalls]

/-- The loop only adds calls to the history it starts from. -/
theorem buildLoop_extends (w : World) (authConfig : Option DockerAuthConfig)
    (images : List Image) (l : ManifestList) (t : List Event) :
    ∃ suffix, (buildLoop w authConfig images l t).2 = t ++ suffix := by
  induction images generalizing l t with
  | nil => exact ⟨[], by simp [buildLoop]⟩
  | cons image rest ih =>
    rw [buildLoop]
    split
    · rename_i e t2 hp
      obtain ⟨suffix, hs, _⟩ := processImage_error w authConfig t t2 image e hp
      exact ⟨suffix, hs⟩
    · rename_i entry t2 hp
      obtain ⟨s, _, _, hs3, _⟩ := processImage_ok w authConfig t t2 image entry hp
      obtain ⟨suffix, hsuf⟩ := ih { l with Manifests := l.Manifests ++ [entry] } t2
      exact ⟨s.events ++ suffix, by rw [hsuf, hs3, List.append_assoc]⟩

/-! ## `createMFList` as its two parts -/

theorem createMFList_of_build_error (w : World) (authConfig : Option DockerAuthConfig)
    (images : List Image) (finalMFImage : Bytes) (err : GoError) (t : List Event)
    (h : buildManifestList w authConfig images = (.error err, t)) :
    createMFList w images finalMFImage authConfig =
      { outcome := Outcome.panicked err, trace := t } := by
  unfold createMFList
  rw [h]

theorem createMFList_of_build_ok (w : World) (authConfig : Option DockerAuthConfig)
    (images : List Image) (finalMFImage : Bytes) (l : ManifestList) (t : List Event)
    (h : buildManifestList w authConfig images = (.ok l, t)) :
    createMFList w images finalMFImage authConfig = publish w authConfig finalMFImage l t := by
  unfold createMFList
  rw [h]

/-- A completed build, spelled out. -/
theorem buildManifestList_ok (w : World) (authConfig : Option DockerAuthConfig)
    (images : List Image) (l : ManifestList) (t : List Event)
    (h : buildManifestList w authConfig images = (.ok l, t)) :
    ∃ steps : List Step, steps.map Step.image = images ∧
      l = { SchemaVersion := 2, MediaType := indexMediaType,
            Manifests := steps.map Step.entry } ∧
      t = stepEvents steps ∧
      ∀ s ∈ steps, w.Digest s.manifestBytes = .ok s.manifestDigest := by
  obtain ⟨steps, h1, h2, h3, h4⟩ := buildLoop_ok w authConfig images _ l [] t h
  exact ⟨steps, h1, by simpa using h2, by simpa using h3, h4⟩

/-- A failed build stopped at some image: the images before it were
processed, that one failed, and the history ends there. -/
theorem buildManifestList_error (w : World) (authConfig : Option DockerAuthConfig)
    (images : List Image) (err : GoError) (t : List Event)
    (h : buildManifestList w authConfig images = (.error err, t)) :
    ∃ steps suffix, steps.length < images.length ∧ t = stepEvents steps ++ suffix ∧
      published suffix = [] ∧ fetchCalls suffix ≤ 1 ∧
      (∀ ref result, Event.newImageDestination ref result ∉ suffix) ∧
      (∀ dest, Event.closeDestination dest ∉ suffix) ∧
      (∀ o, openDestinations suffix o = o) ∧
      (∀ o, (openSources suffix o).length ≤ o.length + 1) := by
  unfold buildManifestList at h
  have key : ∀ (images : List Image) (l : ManifestList) (t0 : List Event),
      buildLoop w authConfig images l t0 = (.error err, t) →
      ∃ steps suffix, steps.length < images.length ∧ t = t0 ++ stepEvents steps ++ suffix ∧
        published suffix = [] ∧ fetchCalls suffix ≤ 1 ∧
        (∀ ref result, Event.newImageDestination ref result ∉ suffix) ∧
        (∀ dest, Event.closeDestination dest ∉ suffix) ∧
        (∀ o, openDestinations suffix o = o) ∧
        (∀ o, (openSources suffix o).length ≤ o.length + 1) := by
    intro images
    induction images with
    | nil => intro l t0 h0; simp [buildLoop] at h0
    | cons image rest ih =>
      intro l t0 h0
      rw [buildLoop] at h0
      split at h0
      · rename_i e t2 hp
        simp only [Prod.mk.injEq, Except.error.injEq] at h0
        rw [h0.1, h0.2] at hp
        obtain ⟨suffix, hs⟩ := processImage_error w authConfig t0 t image err hp
        exact ⟨[], suffix, by simp, by simpa [stepEvents] using hs.1, hs.2⟩
      · rename_i entry t2 hp
        obtain ⟨s, _, _, hs3, _⟩ := processImage_ok w authConfig t0 t2 image entry hp
        obtain ⟨steps, suffix, h1, h2, h3⟩ := ih _ _ h0
        refine ⟨s :: steps, suffix, by simpa using h1, ?_, h3⟩
        rw [h2, hs3]
        simp [stepEvents]
  obtain ⟨steps, suffix, h1, h2, h3⟩ := key images _ [] h
  exact ⟨steps, suffix, h1, by simpa using h2, h3⟩

/-! ## The claims on `createMFList` -/

/-- A run that the world answers with success, as a whole: `createMFList`
makes the calls of the iterations, then prints the serialized index. -/
theorem createMFList_of_succeeds (w : World) (authConfig : Option DockerAuthConfig)
    (images : List Image) (finalMFImage : Bytes) (steps : List Step)
    (himages : steps.map Step.image = images) (hrun : RunSucceeds w authConfig [] steps) :
    ∃ rest, (createMFList w images finalMFImage authConfig).trace =
        stepEvents steps ++
          Event.println (Marshal w.jsonString
            { SchemaVersion := 2, MediaType := indexMediaType,
              Manifests := steps.map Step.entry }) :: rest ∧
      fetched rest = [] ∧ (∀ o, openSources rest o = o) := by
  have hb := buildManifestList_of_succeeds w authConfig images steps himages hrun
  rw [createMFList_of_build_ok w authConfig images finalMFImage _ _ hb]
  exact publish_calls w authConfig finalMFImage _ _

theorem getManifest_mem_stepEvents (steps : List Step) (src : ImageSource)
    (result : Option Bytes) (h : Event.getManifest src result ∈ stepEvents steps) :
    ∃ s ∈ steps, src = s.src ∧ result = some s.manifestBytes := by
  induction steps with
  | nil => simp [stepEvents] at h
  | cons x steps ih =>
    simp only [stepEvents, List.mem_append] at h
    rcases h with h | h
    · simp [Step.events] at h
      exact ⟨x, by simp, h.1, h.2⟩
    · obtain ⟨s, hs, h1, h2⟩ := ih h
      exact ⟨s, by simp [hs], h1, h2⟩

/-- C4: for an input sequence of source images whose parse, session
opening, fetch and digest the world answers with success along the run,
`createMFList` completes the loop and serializes an index that has one
entry per image, in input order: the i-th entry carries the architecture
and the operating system of the i-th image; and whatever is handed to
`PutManifest` is that index. -/
theorem createMFList_order (w : World) (authConfig : Option DockerAuthConfig)
    (images : List Image) (finalMFImage : Bytes) (steps : List Step)
    (himages : steps.map Step.image = images) (hrun : RunSucceeds w authConfig [] steps) :
    ∃ l rest, buildManifestList w authConfig images = (.ok l, stepEvents steps) ∧
      (createMFList w images finalMFImage authConfig).trace =
        stepEvents steps ++ Event.println (Marshal w.jsonString l) :: rest ∧
      l.Manifests.length = images.length ∧
      (∀ (i : Nat) (image : Image), images[i]? = some image →
        ∃ entry, l.Manifests[i]? = some entry ∧
          entry.Platform.Architecture = image.arch ∧ entry.Platform.OS = image.os) ∧
      ∀ manifest ∈ published (createMFList w images finalMFImage authConfig).trace,
        manifest = Marshal w.jsonString l := by
  have hb := buildManifestList_of_succeeds w authConfig images steps himages hrun
  obtain ⟨rest, hrest, _⟩ :=
    createMFList_of_succeeds w authConfig images finalMFImage steps himages hrun
  refine ⟨_, rest, hb, hrest, ?_, ?_, ?_⟩
  · rw [← himages]; simp
  · intro i image hi
    rw [← himages, List.getElem?_map] at hi
    cases hs : steps[i]? with
    | none => simp [hs] at hi
    | some s =>
      simp only [hs, Option.map_some', Option.some.injEq] at hi
      refine ⟨s.entry, ?_, ?_, ?_⟩
      · simp [List.getElem?_map, hs]
      · rw [← hi]; rfl
      · rw [← hi]; rfl
  · intro manifest hm
    rw [createMFList_of_build_ok w authConfig images finalMFImage _ _ hb] at hm
    obtain ⟨suffix, hs1, hs2, _⟩ := publish_trace w authConfig finalMFImage
      { SchemaVersion := 2, MediaType := indexMediaType, Manifests := steps.map Step.entry }
      (stepEvents steps)
    rw [hs1, published_append, published_stepEvents] at hm
    rcases hs2 with e | e
    · simp [e] at hm
    · simpa [e] using hm

/-- C5: in a run that the world answers with success, `createMFList` makes
one fetch per image, in input order, each in the read session opened on
the reference parsed from that image; the i-th entry of the index it
serializes has as `size` the length of the bytes that fetch returned, and
as `digest` what the digest function returns on those same bytes. -/
theorem createMFList_size_digest (w : World) (authConfig : Option DockerAuthConfig)
    (images : List Image) (finalMFImage : Bytes) (steps : List Step)
    (himages : steps.map Step.image = images) (hrun : RunSucceeds w authConfig [] steps) :
    ∃ l rest, buildManifestList w authConfig images = (.ok l, stepEvents steps) ∧
      (createMFList w images finalMFImage authConfig).trace =
        stepEvents steps ++ Event.println (Marshal w.jsonString l) :: rest ∧
      fetched (createMFList w images finalMFImage authConfig).trace =
        steps.map Step.manifestBytes ∧
      l.Manifests.length = images.length ∧
      ∀ (i : Nat) (image : Image), images[i]? = some image →
        ∃ s entry after, steps[i]? = some s ∧ s.image = image ∧
          l.Manifests[i]? = some entry ∧
          w.ParseReference (ascii "//" ++ image.ref) = .ok s.ref ∧
          w.NewImageSource (stepEvents (steps.take i)) authConfig s.ref = .ok s.src ∧
          w.GetManifest (stepEvents (steps.take i) ++ [Event.newImageSource s.ref (some s.src)])
            s.src = .ok s.manifestBytes ∧
          (createMFList w images finalMFImage authConfig).trace =
            stepEvents (steps.take i) ++
              [Event.newImageSource s.ref (some s.src),
               Event.getManifest s.src (some s.manifestBytes)] ++ after ∧
          (fetched (createMFList w images finalMFImage authConfig).trace)[i]? =
            some s.manifestBytes ∧
          entry.Size = Int.ofNat s.manifestBytes.length ∧
          w.Digest s.manifestBytes = .ok entry.Digest := by
  have hb := buildManifestList_of_succeeds w authConfig images steps himages hrun
  obtain ⟨rest, hrest, hf, _⟩ :=
    createMFList_of_succeeds w authConfig images finalMFImage steps himages hrun
  have hfetched : fetched (createMFList w images finalMFImage authConfig).trace =
      steps.map Step.manifestBytes := by
    rw [hrest, fetched_append, fetched_stepEvents]
    simp [fetched, hf]
  refine ⟨_, rest, hb, hrest, hfetched, ?_, ?_⟩
  · rw [← himages]; simp
  · intro i image hi
    rw [← himages, List.getElem?_map] at hi
    cases hs : steps[i]? with
    | none => simp [hs] at hi
    | some s =>
      simp only [hs, Option.map_some', Option.some.injEq] at hi
      obtain ⟨hp, ho, hg, hd⟩ := RunSucceeds_at w authConfig steps [] hrun i s hs
      simp only [List.nil_append] at ho hg
      refine ⟨s, s.entry, ?_, rfl, hi, ?_, ?_, ho, hg, ?_, ?_, rfl, hd⟩
      · exact [Event.println (ascii "Image " ++ ascii " " ++ s.image.ref),
          Event.closeSource s.src] ++ stepEvents (steps.drop (i + 1)) ++
          Event.println (Marshal w.jsonString
            { SchemaVersion := 2, MediaType := indexMediaType,
              Manifests := steps.map Step.entry }) :: rest
      · simp [List.getElem?_map, hs]
      · rw [← hi]; exact hp
      · rw [hrest, stepEvents_split steps i s hs]
        simp [Step.events]
      · rw [hfetched]; simp [List.getElem?_map, hs]

/-- C6: when the world answers the first `K - 1` images with success and
fails the `K`-th at reference parsing, session opening, manifest fetch or
digest computation, `createMFList` panics with that error and its calls
are exactly those of the first `K - 1` iterations followed by the calls of
the `K`-th up to the failing one: no call is made for a later image,
`PutManifest` is not called and no write session is opened. -/
theorem createMFList_fail_fast (w : World) (authConfig : Option DockerAuthConfig)
    (pre : List Image) (image : Image) (post : List Image) (finalMFImage : Bytes)
    (steps : List Step) (err : GoError)
    (hpre : steps.map Step.image = pre) (hrun : RunSucceeds w authConfig [] steps)
    (hfail : StepFails w authConfig (stepEvents steps) image err) :
    ∃ calls, StepFailsWith w authConfig (stepEvents steps) image err calls ∧
      createMFList w (pre ++ image :: post) finalMFImage authConfig =
        { outcome := Outcome.panicked err, trace := stepEvents steps ++ calls } ∧
      published (createMFList w (pre ++ image :: post) finalMFImage authConfig).trace = [] ∧
      (∀ ref result, Event.newImageDestination ref result ∉
        (createMFList w (pre ++ image :: post) finalMFImage authConfig).trace) ∧
      sourceCalls (createMFList w (pre ++ image :: post) finalMFImage authConfig).trace =
        pre.length + sourceCalls calls ∧
      sourceCalls calls ≤ 1 ∧
      fetchCalls (createMFList w (pre ++ image :: post) finalMFImage authConfig).trace =
        pre.length + fetchCalls calls ∧
      fetchCalls calls ≤ 1 ∧
      ∀ src result, Event.getManifest src result ∈
          (createMFList w (pre ++ image :: post) finalMFImage authConfig).trace →
        (∃ s ∈ steps, src = s.src ∧ result = some s.manifestBytes) ∨
          Event.getManifest src result ∈ calls := by
  obtain ⟨calls, hcalls⟩ := StepFails_calls w authConfig (stepEvents steps) image err hfail
  have hp := processImage_of_fails w authConfig (stepEvents steps) image err calls hcalls
  have hb : buildManifestList w authConfig (pre ++ image :: post) =
      (.error err, stepEvents steps ++ calls) := by
    unfold buildManifestList
    rw [buildLoop_append, ← hpre, buildLoop_of_succeeds w authConfig steps _ [] hrun]
    simp only [List.nil_append]
    rw [buildLoop, hp]
  have hrun2 := createMFList_of_build_error w authConfig (pre ++ image :: post) finalMFImage
    err _ hb
  obtain ⟨c1, c2, c3, c4⟩ := StepFailsWith_calls w authConfig (stepEvents steps) image err
    calls hcalls
  have hlen : steps.length = pre.length := by rw [← hpre]; simp
  refine ⟨calls, hcalls, hrun2, ?_, ?_, ?_, c2, ?_, c3, ?_⟩
  · rw [hrun2]; simp [published_append, published_stepEvents, c1]
  · intro ref result hmem
    rw [hrun2] at hmem
    simp only [List.mem_append] at hmem
    rcases hmem with e | e
    · exact newImageDestination_not_mem_stepEvents steps ref result e
    · exact c4 ref result e
  · rw [hrun2]; simp [sourceCalls_append, sourceCalls_stepEvents, hlen]
  · rw [hrun2]; simp [fetchCalls_append, fetchCalls_stepEvents, hlen]
  · intro src result hmem
    rw [hrun2] at hmem
    simp only [List.mem_append] at hmem
    rcases hmem with e | e
    · exact Or.inl (getManifest_mem_stepEvents steps src result e)
    · exact Or.inr e

/-- Whatever the world and the input, `PutManifest` is called only after
the whole loop has completed, at most once, with the serialization of the
built index. -/
theorem createMFList_published (w : World) (authConfig : Option DockerAuthConfig)
    (images : List Image) (finalMFImage : Bytes) (manifest : Bytes)
    (hpub : manifest ∈ published (createMFList w images finalMFImage authConfig).trace) :
    ∃ l t, buildManifestList w authConfig images = (.ok l, t) ∧
      manifest = Marshal w.jsonString l ∧
      published (createMFList w images finalMFImage authConfig).trace =
        [Marshal w.jsonString l] := by
  cases hb : buildManifestList w authConfig images with
  | mk res t =>
    cases res with
    | error err =>
      rw [createMFList_of_build_error w authConfig images finalMFImage err t hb] at hpub
      obtain ⟨steps, suffix, _, h2, h3, _⟩ := buildManifestList_error w authConfig images err t hb
      simp [h2, published_append, published_stepEvents, h3] at hpub
    | ok l =>
      obtain ⟨steps, _, _, h3, _⟩ := buildManifestList_ok w authConfig images l t hb
      rw [createMFList_of_build_ok w authConfig images finalMFImage l t hb] at hpub ⊢
      obtain ⟨suffix, hs1, hs2, _⟩ := publish_trace w authConfig finalMFImage l t
      rw [hs1, published_append, h3, published_stepEvents] at hpub ⊢
      rcases hs2 with e | e
      · simp [e] at hpub
      · exact ⟨l, stepEvents steps, rfl, by simpa [e] using hpub, by simp [e]⟩

/-- C7, as the code has it: the index handed to `PutManifest` has exactly
one entry per input image, so it is non-empty whenever the input sequence
is non-empty. -/
theorem createMFList_published_length (w : World) (authConfig : Option DockerAuthConfig)
    (images : List Image) (finalMFImage : Bytes) (manifest : Bytes)
    (hpub : manifest ∈ published (createMFList w images finalMFImage authConfig).trace) :
    ∃ l t, buildManifestList w authConfig images = (.ok l, t) ∧
      manifest = Marshal w.jsonString l ∧
      l.Manifests.length = images.length ∧
      (images ≠ [] → l.Manifests ≠ []) := by
  obtain ⟨l, t, hb, hm, _⟩ := createMFList_published w authConfig images finalMFImage manifest hpub
  obtain ⟨steps, h1, h2, _⟩ := buildManifestList_ok w authConfig images l t hb
  have hlen : l.Manifests.length = images.length := by rw [h2, ← h1]; simp
  refine ⟨l, t, hb, hm, hlen, ?_⟩
  intro hne hnil
  rw [hnil] at hlen
  exact hne (List.length_eq_zero.mp hlen.symm)

/-- C7 fails on the empty input: every call succeeds, `createMFList`
returns, and the index it has published has no entry. -/
theorem createMFList_publishes_empty_index :
    ∃ l t, buildManifestList worldOk none [] = (.ok l, t) ∧ l.Manifests = [] ∧
      (createMFList worldOk [] exampleDestination none).outcome = Outcome.returned ∧
      published (createMFList worldOk [] exampleDestination none).trace =
        [Marshal worldOk.jsonString l] :=
  ⟨{ SchemaVersion := 2, MediaType := indexMediaType, Manifests := [] }, [], rfl, rfl,
    by decide, by decide⟩

/-- Whatever the world and the input, `createMFList` makes no call that
closes a write session. -/
theorem createMFList_never_closes_destination (w : World)
    (authConfig : Option DockerAuthConfig) (images : List Image) (finalMFImage : Bytes)
    (dest : ImageDestination) :
    Event.closeDestination dest ∉ (createMFList w images finalMFImage authConfig).trace := by
  cases hb : buildManifestList w authConfig images with
  | mk res t =>
    cases res with
    | error err =>
      rw [createMFList_of_build_error w authConfig images finalMFImage err t hb]
      obtain ⟨steps, suffix, _, h2, _, _, _, h6, _⟩ :=
        buildManifestList_error w authConfig images err t hb
      intro hmem
      simp only [h2, List.mem_append] at hmem
      rcases hmem with e | e
      · exact closeDestination_not_mem_stepEvents steps dest e
      · exact h6 dest e
    | ok l =>
      obtain ⟨steps, _, _, h3, _⟩ := buildManifestList_ok w authConfig images l t hb
      rw [createMFList_of_build_ok w authConfig images finalMFImage l t hb]
      obtain ⟨suffix, hs1, _, _, _, hs5, _⟩ := publish_trace w authConfig finalMFImage l t
      intro hmem
      rw [hs1] at hmem
      simp only [h3, List.mem_append] at hmem
      rcases hmem with e | e
      · exact closeDestination_not_mem_stepEvents steps dest e
      · exact hs5 dest e

/-- The read sessions open at the end of a run: at most one on every exit
path, and none when the loop completes, whether the publish succeeds or
fails. -/
theorem createMFList_openSources (w : World) (authConfig : Option DockerAuthConfig)
    (images : List Image) (finalMFImage : Bytes) :
    (openSources (createMFList w images finalMFImage authConfig).trace []).length ≤ 1 ∧
    (∀ l t, buildManifestList w authConfig images = (.ok l, t) →
      openSources t [] = [] ∧
      openSources (createMFList w images finalMFImage authConfig).trace [] = []) ∧
    ((createMFList w images finalMFImage authConfig).outcome = Outcome.returned →
      openSources (createMFList w images finalMFImage authConfig).trace [] = []) := by
  cases hb : buildManifestList w authConfig images with
  | mk res t =>
    cases res with
    | error err =>
      rw [createMFList_of_build_error w authConfig images finalMFImage err t hb]
      obtain ⟨steps, suffix, _, h2, _, _, _, _, _, h8⟩ :=
        buildManifestList_error w authConfig images err t hb
      refine ⟨?_, ?_, ?_⟩
      · simp only [h2, openSources_append, openSources_stepEvents]
        exact h8 []
      · intro l t0 h0; simp at h0
      · intro h0; simp at h0
    | ok l =>
      obtain ⟨steps, _, _, h3, _⟩ := buildManifestList_ok w authConfig images l t hb
      rw [createMFList_of_build_ok w authConfig images finalMFImage l t hb]
      obtain ⟨suffix, hs1, _, _, _, _, hs6, _⟩ := publish_trace w authConfig finalMFImage l t
      have hopen : openSources (publish w authConfig finalMFImage l t).trace [] = [] := by
        rw [hs1, openSources_append, hs6, h3, openSources_stepEvents]
      refine ⟨by simp [hopen], ?_, fun _ => hopen⟩
      intro l0 t0 h0
      simp only [Prod.mk.injEq, Except.ok.injEq] at h0
      refine ⟨?_, hopen⟩
      rw [← h0.2, h3, openSources_stepEvents]

/-- C8, as the code has it: when the world answers the first images of the
input with success, the calls of `createMFList` begin with their
iterations, each made of `NewImageSource`, `GetManifest`, `Println` and
the `Close` of that same session, so that no read session is open before
or after an iteration; at the end of the run at most one read session is
open, and none when every image was answered with success, whether the
publish succeeds or fails. -/
theorem createMFList_read_sessions_closed (w : World) (authConfig : Option DockerAuthConfig)
    (steps : List Step) (later : List Image) (finalMFImage : Bytes)
    (hrun : RunSucceeds w authConfig [] steps) :
    (∀ (i : Nat) (s : Step), steps[i]? = some s →
      ∃ after,
        (createMFList w (steps.map Step.image ++ later) finalMFImage authConfig).trace =
          stepEvents (steps.take i) ++
            [Event.newImageSource s.ref (some s.src),
             Event.getManifest s.src (some s.manifestBytes),
             Event.println (ascii "Image " ++ ascii " " ++ s.image.ref),
             Event.closeSource s.src] ++ after ∧
        openSources (stepEvents (steps.take i)) [] = [] ∧
        openSources (stepEvents (steps.take i) ++
            [Event.newImageSource s.ref (some s.src),
             Event.getManifest s.src (some s.manifestBytes),
             Event.println (ascii "Image " ++ ascii " " ++ s.image.ref)]) [] = [s.src] ∧
        openSources (stepEvents (steps.take i) ++
            [Event.newImageSource s.ref (some s.src),
             Event.getManifest s.src (some s.manifestBytes),
             Event.println (ascii "Image " ++ ascii " " ++ s.image.ref),
             Event.closeSource s.src]) [] = []) ∧
    (openSources
      (createMFList w (steps.map Step.image ++ later) finalMFImage authConfig).trace
      []).length ≤ 1 ∧
    (later = [] →
      openSources
        (createMFList w (steps.map Step.image ++ later) finalMFImage authConfig).trace
        [] = []) := by
  have hext : ∃ suffix,
      (createMFList w (steps.map Step.image ++ later) finalMFImage authConfig).trace =
        stepEvents steps ++ suffix := by
    have hloop : buildManifestList w authConfig (steps.map Step.image ++ later) =
        buildLoop w authConfig later
          { SchemaVersion := 2, MediaType := indexMediaType,
            Manifests := steps.map Step.entry } (stepEvents steps) := by
      unfold buildManifestList
      rw [buildLoop_append, buildLoop_of_succeeds w authConfig steps _ [] hrun]
      simp
    obtain ⟨suffix, hsuf⟩ := buildLoop_extends w authConfig later
      { SchemaVersion := 2, MediaType := indexMediaType, Manifests := steps.map Step.entry }
      (stepEvents steps)
    cases hb : buildManifestList w authConfig (steps.map Step.image ++ later) with
    | mk res t =>
      rw [hloop] at hb
      rw [hb] at hsuf
      simp only at hsuf
      rw [← hloop] at hb
      cases res with
      | error err =>
        rw [createMFList_of_build_error w authConfig _ finalMFImage err t hb]
        exact ⟨suffix, hsuf⟩
      | ok l =>
        rw [createMFList_of_build_ok w authConfig _ finalMFImage l t hb]
        obtain ⟨rest, hrest, _⟩ := publish_calls w authConfig finalMFImage l t
        exact ⟨suffix ++ Event.println (Marshal w.jsonString l) :: rest,
          by rw [hrest, hsuf, List.append_assoc]⟩
  obtain ⟨suffix, hsuf⟩ := hext
  refine ⟨?_, ?_, ?_⟩
  · intro i s hs
    have hclosed : openSources (stepEvents (steps.take i)) [] = [] :=
      openSources_stepEvents (steps.take i)
    refine ⟨stepEvents (steps.drop (i + 1)) ++ suffix, ?_, hclosed, ?_, ?_⟩
    · rw [hsuf, stepEvents_split steps i s hs]
      simp [Step.events]
    · rw [openSources_append, hclosed]
      simp [openSources]
    · rw [openSources_append, hclosed]
      simp [openSources]
  · exact (createMFList_openSources w authConfig (steps.map Step.image ++ later)
      finalMFImage).1
  · intro hl
    subst hl
    have hb := buildManifestList_of_succeeds w authConfig (steps.map Step.image ++ [])
      steps (by simp) hrun
    exact ((createMFList_openSources w authConfig (steps.map Step.image ++ [])
      finalMFImage).2.1 _ _ hb).2

/-- C8 fails: after a run in which every call succeeds the write session
is still open, and after a run in which the digest of the second manifest
fails the read session of the second image is still open. -/
theorem createMFList_leaves_sessions_open :
    (createMFList worldOk ImageList exampleDestination none).outcome = Outcome.returned ∧
    openDestinations (createMFList worldOk ImageList exampleDestination none).trace [] ≠ [] ∧
    (createMFList worldDigestFails ImageList exampleDestination none).outcome =
      Outcome.panicked { message := ascii "bad signature" } ∧
    openSources
      (createMFList worldDigestFails ImageList exampleDestination none).trace [] ≠ [] :=
  ⟨by decide, by decide, by decide, by decide⟩

/-- C9: when the loop completes, the serialized index is a JSON object with
the members `schemaVersion` (2), `mediaType` (the image-index media type)
and `manifests`, in this order; every entry is an object with the members
`mediaType` (the manifest media type), `size`, `digest` and `platform`, in
this order; and the bytes handed to `PutManifest`, when it is reached, are
exactly this serialization. -/
theorem createMFList_document_shape (w : World) (authConfig : Option DockerAuthConfig)
    (images : List Image) (finalMFImage : Bytes) (l : ManifestList) (t : List Event)
    (hbuilt : buildManifestList w authConfig images = (.ok l, t)) :
    Marshal w.jsonString l =
      jsonObject
        [(ascii "schemaVersion", ascii "2"),
         (ascii "mediaType", w.jsonString (ascii "application/vnd.oci.image.index.v1+json")),
         (ascii "manifests", jsonSlice (l.Manifests.map (fun e =>
            jsonObject
              [(ascii "mediaType",
                  w.jsonString (ascii "application/vnd.oci.image.manifest.v1+json")),
               (ascii "size", jsonInt e.Size),
               (ascii "digest", w.jsonString e.Digest),
               (ascii "platform", jsonObject
                  [(ascii "architecture", w.jsonString e.Platform.Architecture),
                   (ascii "os", w.jsonString e.Platform.OS)])])))] ∧
    (∀ manifest ∈ published (createMFList w images finalMFImage authConfig).trace,
      manifest = Marshal w.jsonString l) ∧
    (∀ ref dest, w.ParseReference (ascii "//" ++ finalMFImage) = .ok ref →
      w.NewImageDestination (t ++ [Event.println (Marshal w.jsonString l)]) authConfig ref =
        .ok dest →
      published (createMFList w images finalMFImage authConfig).trace =
        [Marshal w.jsonString l]) := by
  obtain ⟨steps, _, h2, h3, _⟩ := buildManifestList_ok w authConfig images l t hbuilt
  refine ⟨?_, ?_, ?_⟩
  · rw [h2]
    simp only [Marshal, manifestListMembers, entryMembers, platformMembers, List.map_map]
    have hf : ((fun e : ManifestListEntry =>
          jsonObject
            [(ascii "mediaType", w.jsonString e.MediaType), (ascii "size", jsonInt e.Size),
              (ascii "digest", w.jsonString e.Digest),
              (ascii "platform", jsonObject
                [(ascii "architecture", w.jsonString e.Platform.Architecture),
                  (ascii "os", w.jsonString e.Platform.OS)])]) ∘ Step.entry) =
        ((fun e : ManifestListEntry =>
          jsonObject
            [(ascii "mediaType",
                w.jsonString (ascii "application/vnd.oci.image.manifest.v1+json")),
              (ascii "size", jsonInt e.Size),
              (ascii "digest", w.jsonString e.Digest),
              (ascii "platform", jsonObject
                [(ascii "architecture", w.jsonString e.Platform.Architecture),
                  (ascii "os", w.jsonString e.Platform.OS)])]) ∘ Step.entry) := by
      funext s
      rfl
    rw [hf]
    rfl
  · intro manifest hm
    rw [createMFList_of_build_ok w authConfig images finalMFImage l t hbuilt] at hm
    obtain ⟨suffix, hs1, hs2, _⟩ := publish_trace w authConfig finalMFImage l t
    rw [hs1, published_append, h3, published_stepEvents] at hm
    rcases hs2 with e | e
    · simp [e] at hm
    · simpa [e] using hm
  · intro ref dest hp hd
    rw [createMFList_of_build_ok w authConfig images finalMFImage l t hbuilt]
    unfold publish
    simp only [hp, hd]
    split <;> simp [published_append, h3, published_stepEvents, published]

/-! ## The images of `main` -/

set_option maxRecDepth 100000

theorem worldOk_steps : RunSucceeds worldOk none [] [stepArm, stepX86] :=
  ⟨⟨rfl, rfl, rfl, rfl⟩, ⟨rfl, rfl, rfl, rfl⟩, trivial⟩

/-- C4, on the images of `main`, in a registry that refuses to read a
closed session: the run succeeds and serializes two entries, `arm64` then
`amd64`. -/
theorem createMFList_order_witness :
    RunSucceeds worldNoReadAfterClose none [] [stepArm, stepX86] ∧
    ∃ l rest, buildManifestList worldNoReadAfterClose none ImageList =
        (.ok l, stepEvents [stepArm, stepX86]) ∧
      (createMFList worldNoReadAfterClose ImageList exampleDestination none).trace =
        stepEvents [stepArm, stepX86] ++
          Event.println (Marshal worldNoReadAfterClose.jsonString l) :: rest ∧
      l.Manifests.length = ImageList.length ∧
      (∀ (i : Nat) (image : Image), ImageList[i]? = some image →
        ∃ entry, l.Manifests[i]? = some entry ∧
          entry.Platform.Architecture = image.arch ∧ entry.Platform.OS = image.os) ∧
      ∀ manifest ∈
          published (createMFList worldNoReadAfterClose ImageList exampleDestination none).trace,
        manifest = Marshal worldNoReadAfterClose.jsonString l :=
  ⟨⟨⟨rfl, rfl, rfl, rfl⟩, ⟨rfl, rfl, rfl, rfl⟩, trivial⟩,
    createMFList_order worldNoReadAfterClose none ImageList exampleDestination
      [stepArm, stepX86] rfl ⟨⟨rfl, rfl, rfl, rfl⟩, ⟨rfl, rfl, rfl, rfl⟩, trivial⟩⟩

/-- C5, on the images of `main`: the fetched manifests have 5 and 6 bytes,
and these are the sizes of the two entries of the published document. -/
theorem createMFList_size_digest_witness :
    fetched (createMFList worldOk ImageList exampleDestination none).trace =
      [ascii "mmmmm", ascii "mmmmmm"] ∧
    published (createMFList worldOk ImageList exampleDestination none).trace =
      [exampleDocument] ∧
    ∃ l rest, buildManifestList worldOk none ImageList =
        (.ok l, stepEvents [stepArm, stepX86]) ∧
      (createMFList worldOk ImageList exampleDestination none).trace =
        stepEvents [stepArm, stepX86] ++ Event.println (Marshal worldOk.jsonString l) :: rest ∧
      fetched (createMFList worldOk ImageList exampleDestination none).trace =
        [stepArm, stepX86].map Step.manifestBytes ∧
      l.Manifests.length = ImageList.length ∧
      ∀ (i : Nat) (image : Image), ImageList[i]? = some image →
        ∃ s entry after, [stepArm, stepX86][i]? = some s ∧ s.image = image ∧
          l.Manifests[i]? = some entry ∧
          worldOk.ParseReference (ascii "//" ++ image.ref) = .ok s.ref ∧
          worldOk.NewImageSource (stepEvents ([stepArm, stepX86].take i)) none s.ref =
            .ok s.src ∧
          worldOk.GetManifest (stepEvents ([stepArm, stepX86].take i) ++
            [Event.newImageSource s.ref (some s.src)]) s.src = .ok s.manifestBytes ∧
          (createMFList worldOk ImageList exampleDestination none).trace =
            stepEvents ([stepArm, stepX86].take i) ++
              [Event.newImageSource s.ref (some s.src),
               Event.getManifest s.src (some s.manifestBytes)] ++ after ∧
          (fetched (createMFList worldOk ImageList exampleDestination none).trace)[i]? =
            some s.manifestBytes ∧
          entry.Size = Int.ofNat s.manifestBytes.length ∧
          worldOk.Digest s.manifestBytes = .ok entry.Digest :=
  ⟨by decide, by decide,
    createMFList_size_digest worldOk none ImageList exampleDestination [stepArm, stepX86]
      rfl ⟨⟨rfl, rfl, rfl, rfl⟩, ⟨rfl, rfl, rfl, rfl⟩, trivial⟩⟩

/-- C6, at three images of which the second is refused by the registry:
the run panics with that error after the calls of the first iteration and
the refused `NewImageSource`; the third image is never touched. -/
theorem createMFList_fail_fast_witness :
    createMFList worldSecondOpenFails ([imageArm] ++ imageX86 :: [imageArm])
        exampleDestination none =
      { outcome := Outcome.panicked { message := ascii "manifest unknown" },
        trace := stepEvents [stepArm] ++ [Event.newImageSource 2791 none] } ∧
    ∃ calls, StepFailsWith worldSecondOpenFails none (stepEvents [stepArm]) imageX86
        { message := ascii "manifest unknown" } calls ∧
      createMFList worldSecondOpenFails ([imageArm] ++ imageX86 :: [imageArm])
          exampleDestination none =
        { outcome := Outcome.panicked { message := ascii "manifest unknown" },
          trace := stepEvents [stepArm] ++ calls } :=
  ⟨by decide,
    (createMFList_fail_fast worldSecondOpenFails none [imageArm] imageX86 [imageArm]
      exampleDestination [stepArm] { message := ascii "manifest unknown" } rfl
      ⟨⟨rfl, rfl, rfl, rfl⟩, trivial⟩ (Or.inr ⟨_, rfl, Or.inl rfl⟩)).elim
      (fun calls h => ⟨calls, h.1, h.2.1⟩)⟩

/-- C7, as the code has it, on the images of `main`: the published document is the
serialization of an index with two entries. -/
theorem createMFList_published_length_witness :
    exampleDocument ∈
        published (createMFList worldOk ImageList exampleDestination none).trace ∧
    ∃ l t, buildManifestList worldOk none ImageList = (.ok l, t) ∧
      exampleDocument = Marshal worldOk.jsonString l ∧
      l.Manifests.length = ImageList.length ∧
      (ImageList ≠ [] → l.Manifests ≠ []) :=
  ⟨by decide,
    createMFList_published_length worldOk none ImageList exampleDestination exampleDocument
      (by decide)⟩

/-- C8, as the code has it, on the images of `main`: each of the two
iterations ends with the `Close` of the session it opened, and no read
session is open when the run ends, also when `PutManifest` is refused. -/
theorem createMFList_read_sessions_closed_witness :
    (createMFList worldPutFails ImageList exampleDestination none).outcome =
      Outcome.panicked { message := ascii "denied" } ∧
    (∃ after, (createMFList worldPutFails ([stepArm, stepX86].map Step.image ++ [])
          exampleDestination none).trace =
        stepEvents [stepArm] ++
          [Event.newImageSource 2791 (some 2791),
           Event.getManifest 2791 (some (ascii "mmmmmm")),
           Event.println (ascii "Image " ++ ascii " " ++ x86Image),
           Event.closeSource 2791] ++ after) ∧
    openSources (createMFList worldPutFails ([stepArm, stepX86].map Step.image ++ [])
      exampleDestination none).trace [] = [] :=
  ⟨by decide,
    ((createMFList_read_sessions_closed worldPutFails none [stepArm, stepX86] []
      exampleDestination ⟨⟨rfl, rfl, rfl, rfl⟩, ⟨rfl, rfl, rfl, rfl⟩, trivial⟩).1
      1 stepX86 rfl).elim (fun after h => ⟨after, h.1⟩),
    (createMFList_read_sessions_closed worldPutFails none [stepArm, stepX86] []
      exampleDestination ⟨⟨rfl, rfl, rfl, rfl⟩, ⟨rfl, rfl, rfl, rfl⟩, trivial⟩).2.2 rfl⟩

/-- C9, on the images of `main`: the bytes handed to `PutManifest` are the
expected document. -/
theorem createMFList_document_shape_witness :
    published (createMFList worldOk ImageList exampleDestination none).trace =
      [exampleDocument] ∧
    ∃ l t, buildManifestList worldOk none ImageList = (.ok l, t) ∧
      ∀ manifest ∈ published (createMFList worldOk ImageList exampleDestination none).trace,
        manifest = Marshal worldOk.jsonString l :=
  ⟨by decide, _, _, rfl,
    (createMFList_document_shape worldOk none ImageList exampleDestination _ _ rfl).2.1⟩

end ManifestOperator
